import Mathlib

/-!
# githubowners-interceptor: a shallow embedding of `pkg/githubOwners.go`

The interceptor decides whether the sender of a GitHub `pull_request` or
`issue_comment` webhook may start a pipeline.  The Go code is embedded as
follows.

* Go `error` values are observed by the program only through `Error()`, so an
  error is its message (`String`); a Go pair `(bool, error)` is
  `Bool × Option error`.
* Remote calls (GitHub API, secret lookup) are functions of a `Host` / `Env`
  value; every call that is made is appended to a trace of `Call`s, so that
  "is not consulted" is a statement about the trace.
* Library functions that are not part of the repository (`yaml.Unmarshal`,
  `json.Unmarshal`, `interceptors.UnmarshalParams`, header canonicalisation,
  Unicode case folding outside ASCII) are fields of `Env`.
* A Go run-time panic is the `Outcome.panic` result.
-/

namespace GithubOwners

/-! ## Go strings -/

/-- Go `error`, observed through `Error()`. -/
abbrev error := String

/-- `strings.HasPrefix` on rune lists. -/
def startsWith : List Char → List Char → Bool
  | _, [] => true
  | [], _ :: _ => false
  | c :: s, d :: p => c == d && startsWith s p

/-- `strings.Contains` on rune lists. -/
def containsRunes : List Char → List Char → Bool
  | [], sub => startsWith [] sub
  | c :: s, sub => startsWith (c :: s) sub || containsRunes s sub

/-- `strings.Contains(s, substr)`. -/
def Contains (s substr : String) : Bool :=
  containsRunes s.data substr.data

/-- One piece of `strings.Split`: `cur` is the segment being read (reversed). -/
def splitRunes (sep : Char) : List Char → List Char → List String
  | [], cur => [String.mk cur.reverse]
  | c :: s, cur =>
    if c = sep then String.mk cur.reverse :: splitRunes sep s []
    else splitRunes sep s (c :: cur)

/-- `strings.Split(s, "/")`: the segments between the slashes; never empty. -/
def Split (s : String) (sep : Char) : List String :=
  splitRunes sep s.data []

/-- Case folding of one pair of runes as `strings.EqualFold` does it: equal
runes match; otherwise the smaller one is compared with the larger one, by the
ASCII rule when the larger one is ASCII, and by `unicode.SimpleFold`
(`simpleFoldEq lo hi`, a library table) when it is not. -/
def foldRuneEq (simpleFoldEq : Char → Char → Bool) (sr tr : Char) : Bool :=
  if tr = sr then true
  else
    let lo := if tr.toNat < sr.toNat then tr else sr
    let hi := if tr.toNat < sr.toNat then sr else tr
    if hi.toNat < 128 then
      decide (65 ≤ lo.toNat) && decide (lo.toNat ≤ 90) && decide (hi.toNat = lo.toNat + 32)
    else simpleFoldEq lo hi

/-- The rune loop of `strings.EqualFold`. -/
def equalFoldRunes (simpleFoldEq : Char → Char → Bool) : List Char → List Char → Bool
  | [], [] => true
  | [], _ :: _ => false
  | _ :: _, [] => false
  | sr :: s, tr :: t => foldRuneEq simpleFoldEq sr tr && equalFoldRunes simpleFoldEq s t

/-! ## Regular expressions (the fragment of Go `regexp` that the program uses) -/

/-- Syntax of the regular expressions used: literals, `^`, `$` (without the
multi-line flag: beginning and end of the text), concatenation, alternation. -/
inductive Regex where
  | empty : Regex
  | lit (c : Char) : Regex
  | bot : Regex
  | eot : Regex
  | cat (r s : Regex) : Regex
  | alt (r s : Regex) : Regex
  deriving Repr

/-- The regular expression of a literal string. -/
def Regex.str : List Char → Regex
  | [] => Regex.empty
  | c :: cs => Regex.cat (Regex.lit c) (Regex.str cs)

/-- A position in the text: whether it is the beginning of the text, and what
remains to be read. -/
abbrev Pos := Bool × List Char

/-- All ways of matching `r` at a position, in the priority order of a
leftmost-first (Perl-like) matcher: the positions after the match. -/
def Regex.run : Regex → Pos → List Pos
  | Regex.empty, st => [st]
  | Regex.lit c, (_, rest) =>
    match rest with
    | [] => []
    | d :: t => if d = c then [(false, t)] else []
  | Regex.bot, (b, rest) => if b then [(b, rest)] else []
  | Regex.eot, (b, rest) => if rest.isEmpty then [(b, rest)] else []
  | Regex.cat r s, st => (Regex.run r st).flatMap (Regex.run s)
  | Regex.alt r s, st => Regex.run r st ++ Regex.run s st

/-- Search `re.Find`: the leftmost match, as the matched text; `atStart` says
whether the text given is the whole text or a proper suffix of it. -/
def findFrom (re : Regex) : Bool → List Char → Option (List Char)
  | atStart, [] =>
    match Regex.run re (atStart, []) with
    | [] => none
    | _ :: _ => some []
  | atStart, c :: t =>
    match Regex.run re (atStart, c :: t) with
    | [] => findFrom re false t
    | (_, rest) :: _ => some ((c :: t).take ((c :: t).length - rest.length))

/-- `re.Find([]byte(comment))`, converted to a string: `""` when there is no
match (`Find` returns nil). -/
def Find (re : Regex) (comment : String) : String :=
  match findFrom re true comment.data with
  | none => ""
  | some m => String.mk m

/-- The line-break alternatives `(\r\n|\r|\n|$)` that close the pattern. -/
def lineEnd : Regex :=
  Regex.alt (Regex.str ['\r', '\n'])
    (Regex.alt (Regex.lit '\r') (Regex.alt (Regex.lit '\n') Regex.eot))

/-- The token `/ok-to-test` (written `\/ok-to-test` in the pattern). -/
def okToTestToken : List Char := "/ok-to-test".data

/-- `const OKToTestCommentRegexp`, the pattern
`(^|\n)\/ok-to-test(\r\n|\r|\n|$)` as compiled by `regexp.MustCompile`. -/
def OKToTestCommentRegexp : Regex :=
  Regex.cat (Regex.alt Regex.bot (Regex.lit '\n'))
    (Regex.cat (Regex.str okToTestToken) lineEnd)

/-- `MatchRegexp(reg, comment)`: `string(re.Find([]byte(comment))) != ""`. -/
def MatchRegexp (reg : Regex) (comment : String) : Bool :=
  Find reg comment != ""

/-! ## Data model (`pkg/types.go`) -/

/-- `payloadDetails`. -/
structure payloadDetails where
  PrNumber : Int
  Sender : String
  Owner : String
  Repository : String
  DefaultBranch : String
  SHA : String
  BaseBranch : String
  deriving DecidableEq, Repr

/-- `ownersConfig`: a nil slice is the empty list. -/
structure ownersConfig where
  Approvers : List String
  Reviewers : List String
  deriving DecidableEq, Repr

/-- `triggersv1.SecretRef`. -/
structure SecretRef where
  SecretKey : String
  SecretName : String
  deriving DecidableEq, Repr

/-- `GitHubOwnersInterceptor`, the interceptor params; a nil `SecretRef` is
`none`. -/
structure GitHubOwnersInterceptor where
  SecretRef : Option SecretRef
  OrgPublicMemberAllowed : Bool
  RepoMemberAllowed : Bool
  deriving DecidableEq, Repr

/-! ## The repository host (the `go-github` client) -/

/-- `gh.User`, of which the program reads the login only. -/
structure User where
  Login : Option String
  deriving DecidableEq, Repr

/-- `(*gh.User).GetLogin`: the login, `""` when there is none. -/
def User.GetLogin (u : User) : String := u.Login.getD ""

/-- Modelled from the spec: the comment type of `go-github` is not part of the
sources; a comment is `{ author, body }` (the spec's TrustComment), the author
being read through `comment.User.GetLogin()` and the body through
`*comment.Body`. -/
structure Comment where
  User : User
  Body : String
  deriving DecidableEq, Repr

/-- What `client.Organizations.ListMembers` returns as `(users, resp, err)`:
the users with a nil error; or an error together with the response that
carries a status outside 200..299; or an error with no response at all. -/
inductive MembersResult where
  | ok (users : List User)
  | httpError (status : Nat) (err : error)
  | transportError (err : error)
  deriving DecidableEq, Repr

/-- What `client.Repositories.GetContents` returns, followed by
`fileContent.GetContent()` when it is a file: an error, with the status of the
response that came with it when there is one (the program discards the
response and reads the error only); a directory listing; or a file, whose
content decodes or fails to decode. -/
inductive ContentsResult where
  | err (status : Option Nat) (e : error)
  | directory
  | file (content : Except error String)

/-- The state of the repository host as seen through one client. -/
structure Host where
  ListMembers : String → MembersResult
  ListCollaborators : String → String → Except error (List User)
  GetContents : String → String → String → ContentsResult
  ListComments : String → String → Int → Except error (List Comment)

/-- The calls that leave the process, and the parsing of the body, in the
order in which they are made. -/
inductive Call where
  | secretGet (ns : String) (ref : SecretRef)
  | parseBody (body eventType : String)
  | listMembers (org : String)
  | listCollaborators (owner repo : String)
  | getContents (owner repo path : String)
  | listComments (owner repo : String) (number : Int)
  deriving DecidableEq, Repr

/-! ## JSON values as decoded into `map[string]interface{}` -/

/-- A finite `float64`: the value `m * 2 ^ e`. -/
structure Float64 where
  m : Int
  e : Int
  deriving DecidableEq, Repr

/-- Go `int(f)` for a `float64`: truncation towards zero; a value outside the
range of a 64-bit `int` gives the smallest `int` (amd64). -/
def Float64.toInt (f : Float64) : Int :=
  let v := if 0 ≤ f.e then f.m * 2 ^ f.e.toNat else Int.tdiv f.m (2 ^ (-f.e).toNat)
  if -(2 ^ 63) ≤ v ∧ v < 2 ^ 63 then v else -(2 ^ 63)

/-- A decoded JSON value (`interface{}`); an object is its key/value pairs. -/
inductive JSON where
  | null : JSON
  | bool (b : Bool) : JSON
  | number (f : Float64) : JSON
  | string (s : String) : JSON
  | array (xs : List JSON) : JSON
  | object (kvs : List (String × JSON)) : JSON

/-- `v, ok := m[key].(map[string]interface{})`. -/
def asObject (m : List (String × JSON)) (key : String) : Option (List (String × JSON)) :=
  match m.lookup key with
  | some (JSON.object kvs) => some kvs
  | _ => none

/-- `v, ok := m[key].(string)`. -/
def asString (m : List (String × JSON)) (key : String) : Option String :=
  match m.lookup key with
  | some (JSON.string s) => some s
  | _ => none

/-! ## The environment: libraries and the outside world -/

/-- Everything `Process` uses that is not code of the repository. -/
structure Env where
  /-- `unicode.SimpleFold` orbits, consulted by `strings.EqualFold` for a pair
  of distinct runes of which the larger is not ASCII. -/
  simpleFoldEq : Char → Char → Bool
  /-- `yaml.Unmarshal` into an `ownersConfig`. -/
  yamlUnmarshal : String → Except error ownersConfig
  /-- `json.Unmarshal` into a `map[string]interface{}`. -/
  jsonUnmarshal : String → Except error (List (String × JSON))
  /-- `interceptors.UnmarshalParams` into a `GitHubOwnersInterceptor`. -/
  UnmarshalParams : List (String × JSON) → Except error GitHubOwnersInterceptor
  /-- `interceptors.Canonical(header).Get(key)`. -/
  headerGet : List (String × List String) → String → String
  /-- `SecretGetter.Get`. -/
  SecretGet : String → SecretRef → Except error String
  /-- `gh.NewEnterpriseClient(url, url, httpClient)`, the http client being
  built from the token (`""`: none). -/
  NewEnterpriseClient : String → String → Except error Host
  /-- `gh.NewClient(httpClient)`. -/
  NewClient : String → Host

/-- `strings.EqualFold`. -/
def EqualFold (env : Env) (s t : String) : Bool :=
  equalFoldRunes env.simpleFoldEq s.data t.data

/-! ## Requests and responses (`interceptor_types.go`) -/

/-- `TriggerContext`. -/
structure TriggerContext where
  EventURL : String
  EventID : String
  TriggerID : String
  deriving DecidableEq, Repr

/-- `InterceptorRequest` (the extensions, which the program does not read, are
left out); a nil `Context` is `none`. -/
structure InterceptorRequest where
  Body : String
  Header : List (String × List String)
  InterceptorParams : List (String × JSON)
  Context : Option TriggerContext

/-- `codes.Code`. -/
abbrev Code := Nat

/-- `codes.OK`. -/
def codes.OK : Code := 0
/-- `codes.InvalidArgument`. -/
def codes.InvalidArgument : Code := 3
/-- `codes.FailedPrecondition`. -/
def codes.FailedPrecondition : Code := 9

/-- `Status`. -/
structure Status where
  Code : Code
  Message : String
  deriving DecidableEq, Repr

/-- `InterceptorResponse` (the extensions are never set). -/
structure InterceptorResponse where
  Continue : Bool
  Status : Status
  deriving DecidableEq, Repr

/-- Modelled from the spec: `interceptors.Fail` / `interceptors.Failf` of the
triggers library are not part of the sources; a failure is a response with
`continue = false` and a status carrying the code and the diagnostic message. -/
def Fail (c : Code) (msg : String) : InterceptorResponse :=
  { Continue := false, Status := { Code := c, Message := msg } }

/-- A response literal `&InterceptorResponse{Continue: b}`: the status is the
zero value, code `OK` and an empty message. -/
def verdict (b : Bool) : InterceptorResponse :=
  { Continue := b, Status := { Code := codes.OK, Message := "" } }

/-- `ParseTriggerID`. -/
def ParseTriggerID (triggerID : String) : String × String :=
  match Split triggerID '/' with
  | [_, ns, _, name] => (ns, name)
  | _ => ("", "")

/-- The result of running Go code that may panic. -/
inductive Outcome (α : Type) where
  | ret (a : α)
  | panic (msg : String)
  deriving Repr

/-! ## The program (`pkg/githubOwners.go`) -/

/-- `ErrInvalidContentType.Error()`. -/
def ErrInvalidContentType : String :=
  "form parameter encoding not supported, please change the hook to send JSON payloads"

/-- `acceptedEventTypes`. -/
def acceptedEventTypes : List String := ["pull_request", "issue_comment"]

/-- `Interceptor.getSecret`: the token and the error, with the calls made.
Reading `r.Context.TriggerID` through a nil `Context` panics. -/
def getSecret (env : Env) (r : InterceptorRequest) (p : GitHubOwnersInterceptor) :
    Outcome (String × Option error) × List Call :=
  match p.SecretRef with
  | none => (Outcome.ret ("", none), [])
  | some ref =>
    if ref.SecretKey = "" then
      (Outcome.ret ("", some "github interceptor secretRef.secretKey is empty"), [])
    else
      match r.Context with
      | none => (Outcome.panic "invalid memory address or nil pointer dereference", [])
      | some c =>
        let ns := (ParseTriggerID c.TriggerID).1
        match env.SecretGet ns ref with
        | Except.error err =>
          (Outcome.ret ("", some ("error getting secret: " ++ err)), [Call.secretGet ns ref])
        | Except.ok secretToken =>
          (Outcome.ret (secretToken, none), [Call.secretGet ns ref])

/-- The `pull_request` block of `parseBody` (lines 145 to 152): the number, or
the error returned; the one-value type assertion `.(float64)` panics on a
value that is not a number. -/
def numberOfPullRequest (jsonMap : List (String × JSON)) : Outcome (Except error Int) :=
  match jsonMap.lookup "number" with
  | none => Outcome.ret (Except.error "pull_request body missing \x27number\x27 field")
  | some (JSON.number f) => Outcome.ret (Except.ok f.toInt)
  | some _ => Outcome.panic "interface conversion: interface is not float64"

/-- The `issue_comment` block of `parseBody` (lines 156 to 164). -/
def numberOfIssueComment (jsonMap : List (String × JSON)) : Outcome (Except error Int) :=
  match asObject jsonMap "issue" with
  | none => Outcome.ret (Except.error "issue_comment body missing \x27issue\x27 section")
  | some issueSection =>
    match issueSection.lookup "number" with
    | none =>
      Outcome.ret
        (Except.error "\x27number\x27 field missing in the issue section of issue_comment body")
    | some (JSON.number f) => Outcome.ret (Except.ok f.toInt)
    | some _ => Outcome.panic "interface conversion: interface is not float64"

/-- The end of `parseBody` (lines 167 to 190), `prNum` being known.  Indexing
`strings.Split(fullName, "/")` at 1 panics when there is no slash. -/
def parseBodyRest (jsonMap : List (String × JSON)) (prNum : Int) :
    Outcome (payloadDetails × Option error) :=
  let results : payloadDetails := ⟨0, "", "", "", "", "", ""⟩
  match asObject jsonMap "repository" with
  | none => Outcome.ret (results, some "payload body missing \x27repository\x27 field")
  | some repoSection =>
    match asString repoSection "full_name" with
    | none =>
      Outcome.ret (results, some "payload body missing \x27repository.full_name\x27 field")
    | some fullName =>
      match asObject jsonMap "sender" with
      | none => Outcome.ret (results, some "payload body missing \x27sender\x27 field")
      | some senderSection =>
        let prSender := (asString senderSection "login").getD ""
        match Split fullName '/' with
        | owner :: repository :: _ =>
          Outcome.ret
            ({ PrNumber := prNum, Sender := prSender, Owner := owner,
               Repository := repository, DefaultBranch := "", SHA := "",
               BaseBranch := "" }, none)
        | _ => Outcome.panic "index out of range [1] with length 1"

/-- `parseBody`. -/
def parseBody (env : Env) (body eventType : String) :
    Outcome (payloadDetails × Option error) :=
  let results : payloadDetails := ⟨0, "", "", "", "", "", ""⟩
  if body = "" then Outcome.ret (results, some "body is empty")
  else
    match env.jsonUnmarshal body with
    | Except.error err => Outcome.ret (results, some err)
    | Except.ok jsonMap =>
      match (if eventType = "pull_request" then numberOfPullRequest jsonMap
             else Outcome.ret (Except.ok 0)) with
      | Outcome.panic msg => Outcome.panic msg
      | Outcome.ret (Except.error err) => Outcome.ret (results, some err)
      | Outcome.ret (Except.ok prNum) =>
        match (if eventType = "issue_comment" then numberOfIssueComment jsonMap
               else Outcome.ret (Except.ok prNum)) with
        | Outcome.panic msg => Outcome.panic msg
        | Outcome.ret (Except.error err) => Outcome.ret (results, some err)
        | Outcome.ret (Except.ok prNum) => parseBodyRest jsonMap prNum

/-- `checkSenderOrgMembership`: a response with status 404 is "no member", any
other error is returned, otherwise the logins are compared with `==`. -/
def checkSenderOrgMembership (client : Host) (payload : payloadDetails) :
    (Bool × Option error) × List Call :=
  match client.ListMembers payload.Owner with
  | MembersResult.httpError status err =>
    if status = 404 then ((false, none), [Call.listMembers payload.Owner])
    else ((false, some err), [Call.listMembers payload.Owner])
  | MembersResult.transportError err =>
    ((false, some err), [Call.listMembers payload.Owner])
  | MembersResult.ok users =>
    ((users.any (fun user => user.GetLogin == payload.Sender), none),
      [Call.listMembers payload.Owner])

/-- `checkSenderRepoMembership`. -/
def checkSenderRepoMembership (client : Host) (payload : payloadDetails) :
    (Bool × Option error) × List Call :=
  match client.ListCollaborators payload.Owner payload.Repository with
  | Except.error err =>
    ((false, some err), [Call.listCollaborators payload.Owner payload.Repository])
  | Except.ok users =>
    ((users.any (fun user => user.GetLogin == payload.Sender), none),
      [Call.listCollaborators payload.Owner payload.Repository])

/-- `getContentFromOwners`. -/
def getContentFromOwners (client : Host) (path : String) (payload : payloadDetails) :
    (String × Option error) × List Call :=
  match client.GetContents payload.Owner payload.Repository path with
  | ContentsResult.err _ e =>
    (("", some e), [Call.getContents payload.Owner payload.Repository path])
  | ContentsResult.directory =>
    (("", some ("referenced file inside the Github Repository " ++ path ++ " is a directory")),
      [Call.getContents payload.Owner payload.Repository path])
  | ContentsResult.file (Except.error e) =>
    (("", some e), [Call.getContents payload.Owner payload.Repository path])
  | ContentsResult.file (Except.ok fileData) =>
    ((fileData, none), [Call.getContents payload.Owner payload.Repository path])

/-- `userInOwnerFile`. -/
def userInOwnerFile (env : Env) (ownerContent sender : String) : Bool × Option error :=
  match env.yamlUnmarshal ownerContent with
  | Except.error err => (false, some err)
  | Except.ok oc =>
    ((oc.Approvers ++ oc.Reviewers).any (fun owner => EqualFold env owner sender), none)

/-- Lines 233 to 242 of `checkOwnershipAndMembership`: the OWNERS file. -/
def ownersStep (env : Env) (client : Host) (payload : payloadDetails) :
    (Bool × Option error) × List Call :=
  match getContentFromOwners client "OWNERS" payload with
  | ((_, some err), t) =>
    if Contains err "404" then ((false, none), t) else ((false, some err), t)
  | ((ownerContent, none), t) => (userInOwnerFile env ownerContent payload.Sender, t)

/-- Lines 223 to 242 of `checkOwnershipAndMembership`: the collaborators, then
the OWNERS file. -/
def repoStep (env : Env) (client : Host) (payload : payloadDetails)
    (p : GitHubOwnersInterceptor) : (Bool × Option error) × List Call :=
  if p.RepoMemberAllowed then
    match checkSenderRepoMembership client payload with
    | ((_, some err), t) => ((false, some err), t)
    | ((true, none), t) => ((true, none), t)
    | ((false, none), t) =>
      ((ownersStep env client payload).1, t ++ (ownersStep env client payload).2)
  else ownersStep env client payload

/-- `checkOwnershipAndMembership`. -/
def checkOwnershipAndMembership (env : Env) (client : Host) (payload : payloadDetails)
    (p : GitHubOwnersInterceptor) : (Bool × Option error) × List Call :=
  if p.OrgPublicMemberAllowed then
    match checkSenderOrgMembership client payload with
    | ((_, some err), t) => ((false, some err), t)
    | ((true, none), t) => ((true, none), t)
    | ((false, none), t) =>
      ((repoStep env client payload p).1, t ++ (repoStep env client payload p).2)
  else repoStep env client payload p

/-- `getStringPullRequestComment`: the comments whose body matches. -/
def getStringPullRequestComment (client : Host) (payload : payloadDetails) :
    (List Comment × Option error) × List Call :=
  match client.ListComments payload.Owner payload.Repository payload.PrNumber with
  | Except.error err =>
    (([], some err), [Call.listComments payload.Owner payload.Repository payload.PrNumber])
  | Except.ok comments =>
    ((comments.filter (fun comment => MatchRegexp OKToTestCommentRegexp comment.Body), none),
      [Call.listComments payload.Owner payload.Repository payload.PrNumber])

/-- The loop of `allowedOkToTestFromAnOwner` over the retained comments. -/
def scanComments (env : Env) (client : Host) (payload : payloadDetails)
    (p : GitHubOwnersInterceptor) : List Comment → (Bool × Option error) × List Call
  | [] => ((false, none), [])
  | comment :: rest =>
    match checkOwnershipAndMembership env client
        { payload with Sender := comment.User.GetLogin } p with
    | ((_, some err), t) => ((false, some err), t)
    | ((true, none), t) => ((true, none), t)
    | ((false, none), t) =>
      ((scanComments env client { payload with Sender := comment.User.GetLogin } p rest).1,
        t ++ (scanComments env client
          { payload with Sender := comment.User.GetLogin } p rest).2)

/-- `allowedOkToTestFromAnOwner`. -/
def allowedOkToTestFromAnOwner (env : Env) (client : Host) (payload : payloadDetails)
    (p : GitHubOwnersInterceptor) : (Bool × Option error) × List Call :=
  match getStringPullRequestComment client payload with
  | ((_, some err), t) => ((false, some err), t)
  | ((comments, none), t) =>
    ((scanComments env client payload p comments).1,
      t ++ (scanComments env client payload p comments).2)

/-- Lines 91 to 113 of `Process`: the decision, the payload being known. -/
def processDecision (env : Env) (client : Host) (payload : payloadDetails)
    (p : GitHubOwnersInterceptor) : InterceptorResponse × List Call :=
  match checkOwnershipAndMembership env client payload p with
  | ((_, some err), t) =>
    (Fail codes.FailedPrecondition ("error checking owner verification: " ++ err), t)
  | ((true, none), t) => (verdict true, t)
  | ((false, none), t) =>
    match allowedOkToTestFromAnOwner env client payload p with
    | ((_, some err), t2) =>
      (Fail codes.FailedPrecondition ("error checking comments for verification: " ++ err),
        t ++ t2)
    | ((true, none), t2) => (verdict true, t ++ t2)
    | ((false, none), t2) => (verdict false, t ++ t2)

/-- Lines 67 to 84 of `Process`: the client, an enterprise client when the
enterprise host header is set. -/
def newClient (env : Env) (enterpriseHost secretToken : String) : Except error Host :=
  if enterpriseHost ≠ "" then
    env.NewEnterpriseClient ("https://" ++ enterpriseHost) secretToken
  else Except.ok (env.NewClient secretToken)

/-- Lines 62 to 113 of `Process`: the event type being accepted. -/
def processAccepted (env : Env) (r : InterceptorRequest) (p : GitHubOwnersInterceptor)
    (actualEvent enterpriseHost : String) : Outcome InterceptorResponse × List Call :=
  match getSecret env r p with
  | (Outcome.panic msg, t) => (Outcome.panic msg, t)
  | (Outcome.ret (_, some err), t) =>
    (Outcome.ret (Fail codes.FailedPrecondition ("error getting the secret: " ++ err)), t)
  | (Outcome.ret (secretToken, none), t) =>
    match newClient env enterpriseHost secretToken with
    | Except.error err =>
      (Outcome.ret (Fail codes.FailedPrecondition
        ("error initializing a new enterprise client: " ++ err)), t)
    | Except.ok client =>
      match parseBody env r.Body actualEvent with
      | Outcome.panic msg => (Outcome.panic msg, t ++ [Call.parseBody r.Body actualEvent])
      | Outcome.ret (_, some err) =>
        (Outcome.ret (Fail codes.FailedPrecondition ("error parsing body: " ++ err)),
          t ++ [Call.parseBody r.Body actualEvent])
      | Outcome.ret (payload, none) =>
        (Outcome.ret (processDecision env client payload p).1,
          t ++ [Call.parseBody r.Body actualEvent] ++ (processDecision env client payload p).2)

/-- `Interceptor.Process`: the response (or a panic), and the calls made. -/
def Process (env : Env) (r : InterceptorRequest) : Outcome InterceptorResponse × List Call :=
  if env.headerGet r.Header "Content-Type" = "application/x-www-form-urlencoded" then
    (Outcome.ret (Fail codes.InvalidArgument ErrInvalidContentType), [])
  else
    match env.UnmarshalParams r.InterceptorParams with
    | Except.error err =>
      (Outcome.ret (Fail codes.InvalidArgument
        ("failed to parse interceptor params: " ++ err)), [])
    | Except.ok p =>
      if acceptedEventTypes.any (fun allowedEvent =>
          env.headerGet r.Header "X-GitHub-Event" == allowedEvent) then
        processAccepted env r p (env.headerGet r.Header "X-GitHub-Event")
          (env.headerGet r.Header "X-Github-Enterprise-Host")
      else
        (Outcome.ret (Fail codes.FailedPrecondition
          ("event type " ++ env.headerGet r.Header "X-GitHub-Event" ++ " is not allowed")), [])

/-! ## Notions used to state the properties -/

/-- Whether a call to the repository host returns an error (an `err` that is
not nil), in the state `client`. -/
def callFails (client : Host) : Call → Bool
  | Call.listMembers org =>
    match client.ListMembers org with
    | MembersResult.ok _ => false
    | _ => true
  | Call.listCollaborators owner repo =>
    match client.ListCollaborators owner repo with
    | Except.ok _ => false
    | Except.error _ => true
  | Call.getContents owner repo path =>
    match client.GetContents owner repo path with
    | ContentsResult.err _ _ => true
    | _ => false
  | Call.listComments owner repo number =>
    match client.ListComments owner repo number with
    | Except.ok _ => false
    | Except.error _ => true
  | _ => false

/-- The sender is among the listed public members of the owner. -/
def listedMember (client : Host) (payload : payloadDetails) : Prop :=
  ∃ users, client.ListMembers payload.Owner = MembersResult.ok users ∧
    payload.Sender ∈ users.map User.GetLogin

/-- The sender is among the listed collaborators of the repository. -/
def listedCollaborator (client : Host) (payload : payloadDetails) : Prop :=
  ∃ users, client.ListCollaborators payload.Owner payload.Repository = Except.ok users ∧
    payload.Sender ∈ users.map User.GetLogin

/-- The OWNERS file is retrieved, parses, and one of its approvers or
reviewers equals the sender up to case. -/
def ownerListed (env : Env) (client : Host) (payload : payloadDetails) : Prop :=
  ∃ content oc,
    client.GetContents payload.Owner payload.Repository "OWNERS"
      = ContentsResult.file (Except.ok content) ∧
    env.yamlUnmarshal content = Except.ok oc ∧
    ∃ owner ∈ oc.Approvers ++ oc.Reviewers, EqualFold env owner payload.Sender = true

/-- The calls of `checkOwnershipAndMembership` when no source grants or fails,
in the order of the sources. -/
def plannedCalls (payload : payloadDetails) (p : GitHubOwnersInterceptor) : List Call :=
  (if p.OrgPublicMemberAllowed then [Call.listMembers payload.Owner] else []) ++
  (if p.RepoMemberAllowed then [Call.listCollaborators payload.Owner payload.Repository]
   else []) ++
  [Call.getContents payload.Owner payload.Repository "OWNERS"]

/-- A remote call of `checkOwnershipAndMembership` that returns an error other
than the designated not-found result of the OWNERS retrieval, which is an
error that comes with a response of status 404. -/
def hardFailure (client : Host) : Call → Bool
  | Call.getContents owner repo path =>
    match client.GetContents owner repo path with
    | ContentsResult.err status _ => status != some 404
    | _ => false
  | c => callFails client c

/-- A hard failure that is not a member listing answered with status 404 and,
when it is an error of the OWNERS retrieval, whose text does not contain
`404`: nothing is said of an OWNERS error that is not a not-found and whose
text contains `404`. -/
def propagatedFailure (client : Host) : Call → Bool
  | Call.listMembers org =>
    match client.ListMembers org with
    | MembersResult.ok _ => false
    | MembersResult.httpError status _ => status != 404
    | MembersResult.transportError _ => true
  | Call.getContents owner repo path =>
    match client.GetContents owner repo path with
    | ContentsResult.err status e => status != some 404 && !Contains e "404"
    | _ => false
  | c => hardFailure client c

/-- The request passes the checks of `Process` that come before the decision
(lines 37 to 89): the content type is not form encoded, the params parse to
`p`, the event type is accepted, the secret (if any) is obtained, the client
is built and the body parses to `payload`. -/
def reachesDecision (env : Env) (r : InterceptorRequest) (p : GitHubOwnersInterceptor)
    (client : Host) (payload : payloadDetails) : Prop :=
  env.headerGet r.Header "Content-Type" ≠ "application/x-www-form-urlencoded" ∧
  env.UnmarshalParams r.InterceptorParams = Except.ok p ∧
  env.headerGet r.Header "X-GitHub-Event" ∈ acceptedEventTypes ∧
  ∃ secretToken,
    (getSecret env r p).1 = Outcome.ret (secretToken, none) ∧
    newClient env (env.headerGet r.Header "X-Github-Enterprise-Host") secretToken
      = Except.ok client ∧
    parseBody env r.Body (env.headerGet r.Header "X-GitHub-Event")
      = Outcome.ret (payload, none)

/-- The response that `Process` derives from the result of the comment scan
(lines 103 to 113). -/
def commentVerdict : Bool × Option error → InterceptorResponse
  | (_, some err) =>
    Fail codes.FailedPrecondition ("error checking comments for verification: " ++ err)
  | (b, none) => verdict b

/-- The evaluation that the comment scan runs for one comment: the payload
with only the sender replaced by the author of the comment. -/
def evalAuthor (env : Env) (client : Host) (payload : payloadDetails)
    (p : GitHubOwnersInterceptor) (comment : Comment) : (Bool × Option error) × List Call :=
  checkOwnershipAndMembership env client { payload with Sender := comment.User.GetLogin } p

/-- The comments that the scan retains: those whose body matches the trust
pattern, in the order of retrieval. -/
def retained (comments : List Comment) : List Comment :=
  comments.filter (fun comment => MatchRegexp OKToTestCommentRegexp comment.Body)

/-- What follows is a line break (LF, CR LF or a lone CR) or the end of the
text. -/
def atLineEnd (post : List Char) : Prop :=
  post = [] ∨ post.head? = some '\n' ∨ post.head? = some '\r'

/-- What precedes is nothing (the start of the text) or ends with a line break,
LF or CR. -/
def afterLineBreak (pre : List Char) : Prop :=
  pre = [] ∨ pre.getLast? = some '\n' ∨ pre.getLast? = some '\r'

/-- What precedes is nothing (the start of the text) or ends with LF, as it
does after the line breaks LF and CR LF. -/
def afterLineFeed (pre : List Char) : Prop :=
  pre = [] ∨ pre.getLast? = some '\n'

/-- The body is a valid payload for the event type: it decodes to an object
with a numeric pull-request number (`number`, or `issue.number` for
`issue_comment`), a `repository.full_name` of the form `owner/repository`, and
a `sender` object with the login `sender`. -/
def validBody (env : Env) (body eventType : String) (number : Int)
    (owner repository sender : String) : Prop :=
  body ≠ "" ∧
  ∃ jsonMap, env.jsonUnmarshal body = Except.ok jsonMap ∧
    ((eventType = "pull_request" ∧
        ∃ f, jsonMap.lookup "number" = some (JSON.number f) ∧ f.toInt = number) ∨
     (eventType = "issue_comment" ∧
        ∃ issueSection f, asObject jsonMap "issue" = some issueSection ∧
          issueSection.lookup "number" = some (JSON.number f) ∧ f.toInt = number)) ∧
    (∃ repoSection fullName, asObject jsonMap "repository" = some repoSection ∧
      asString repoSection "full_name" = some fullName ∧
      Split fullName '/' = [owner, repository]) ∧
    ∃ senderSection, asObject jsonMap "sender" = some senderSection ∧
      asString senderSection "login" = some sender

/-- The payload with the given number, sender, owner and repository, the
other fields being empty. -/
def payloadOf (number : Int) (sender owner repository : String) : payloadDetails :=
  { PrNumber := number, Sender := sender, Owner := owner, Repository := repository,
    DefaultBranch := "", SHA := "", BaseBranch := "" }

/-- A `pull_request` request with a valid body, no secretRef and both
membership flags unset, whose sender the OWNERS file of the repository names
up to case (the file being retrieved through the client of the request). -/
def ownerPullRequest (env : Env) (r : InterceptorRequest) : Prop :=
  env.headerGet r.Header "X-GitHub-Event" = "pull_request" ∧
  ∃ p client number owner repository sender,
    env.UnmarshalParams r.InterceptorParams = Except.ok p ∧
    p.SecretRef = none ∧ p.OrgPublicMemberAllowed = false ∧ p.RepoMemberAllowed = false ∧
    validBody env r.Body "pull_request" number owner repository sender ∧
    newClient env (env.headerGet r.Header "X-Github-Enterprise-Host") "" = Except.ok client ∧
    ownerListed env client (payloadOf number sender owner repository)

/-- A request with an accepted event type and a valid body for which every
remote call succeeds (the secret, if one is referenced, is obtained, the
client is built, the listings that are enabled succeed, the OWNERS file is
retrieved and parses, the comments are listed) and no source grants: the
sender is in no listing that is enabled and is not named by the OWNERS file,
and no comment body matches the trust pattern. -/
def unauthorizedRequest (env : Env) (r : InterceptorRequest) : Prop :=
  env.headerGet r.Header "X-GitHub-Event" ∈ acceptedEventTypes ∧
  ∃ p client number owner repository sender secretToken,
    env.UnmarshalParams r.InterceptorParams = Except.ok p ∧
    validBody env r.Body (env.headerGet r.Header "X-GitHub-Event")
      number owner repository sender ∧
    (getSecret env r p).1 = Outcome.ret (secretToken, none) ∧
    newClient env (env.headerGet r.Header "X-Github-Enterprise-Host") secretToken
      = Except.ok client ∧
    (p.OrgPublicMemberAllowed = true →
      ∃ users, client.ListMembers owner = MembersResult.ok users ∧
        sender ∉ users.map User.GetLogin) ∧
    (p.RepoMemberAllowed = true →
      ∃ users, client.ListCollaborators owner repository = Except.ok users ∧
        sender ∉ users.map User.GetLogin) ∧
    (∃ content oc, client.GetContents owner repository "OWNERS"
        = ContentsResult.file (Except.ok content) ∧
      env.yamlUnmarshal content = Except.ok oc ∧
      ∀ o ∈ oc.Approvers ++ oc.Reviewers, EqualFold env o sender = false) ∧
    ∃ comments, client.ListComments owner repository number = Except.ok comments ∧
      ∀ c ∈ comments, MatchRegexp OKToTestCommentRegexp c.Body = false

/-- The pattern after its opening group: the token, then a line end. -/
def tokenLine : Regex := Regex.cat (Regex.str okToTestToken) lineEnd

/-- The pattern matches at a position: the token stands there and the text
begins, or a line feed and then the token stands there; a line end follows. -/
def matchesHere (b : Bool) (text : List Char) : Prop :=
  ∃ post, atLineEnd post ∧
    ((b = true ∧ text = okToTestToken ++ post) ∨ text = '\n' :: (okToTestToken ++ post))

/-- The place of an occurrence of the token that the search can report when it
starts at a position: at the position itself if the text begins there, or
after a line feed. -/
def foundAt (b : Bool) (pre : List Char) : Prop :=
  (pre = [] ∧ b = true) ∨ pre.getLast? = some '\n'

/-- The number of halvings that bring `a` below `2 ^ 53`, at most `fuel`. -/
def shiftsTo53 : Nat → Nat → Nat
  | 0, _ => 0
  | fuel + 1, a => if a < 2 ^ 53 then 0 else shiftsTo53 fuel (a / 2) + 1

/-- The `float64` that `json.Unmarshal` (through `strconv.ParseFloat`) yields
for an integer literal `n` within the range of `float64`: `n` itself up to
`2 ^ 53` in absolute value, and beyond that the nearest value with a 53-bit
mantissa, ties going to the even mantissa. -/
def Float64.ofInt (n : Int) : Float64 :=
  if n.natAbs ≤ 2 ^ 53 then ⟨n, 0⟩
  else
    let k := shiftsTo53 1100 n.natAbs
    let q := n.natAbs / 2 ^ k
    let rem := n.natAbs % 2 ^ k
    let half := 2 ^ (k - 1)
    let m := if half < rem ∨ (rem = half ∧ q % 2 = 1) then q + 1 else q
    ⟨n.sign * m, k⟩

/-- The decoded body carries the pull-request number of the event type as the
number `f`: `number` for `pull_request`, `issue.number` for `issue_comment`. -/
def numberField (jsonMap : List (String × JSON)) (eventType : String) (f : Float64) : Prop :=
  (eventType = "pull_request" ∧ jsonMap.lookup "number" = some (JSON.number f)) ∨
  (eventType = "issue_comment" ∧
    ∃ issueSection, asObject jsonMap "issue" = some issueSection ∧
      issueSection.lookup "number" = some (JSON.number f))

/-- The body is not empty and decodes to `jsonMap`, which carries the number
`f` required by the event type and the string `repository.full_name`; nothing
is said of the form of the full name nor of the sender. -/
def numberedBody (env : Env) (body eventType : String) (jsonMap : List (String × JSON))
    (f : Float64) (fullName : String) : Prop :=
  body ≠ "" ∧ env.jsonUnmarshal body = Except.ok jsonMap ∧
  numberField jsonMap eventType f ∧
  ∃ repoSection, asObject jsonMap "repository" = some repoSection ∧
    asString repoSection "full_name" = some fullName

/-- The decoded body has a `sender` object whose `login` is the string
`sender`. -/
def senderLogin (jsonMap : List (String × JSON)) (sender : String) : Prop :=
  ∃ senderSection, asObject jsonMap "sender" = some senderSection ∧
    asString senderSection "login" = some sender

/-- Every remote call that `checkOwnershipAndMembership` can make for the
payload succeeds in the state of the host: the two listings and the retrieval
of the OWNERS file. -/
def allCallsSucceed (client : Host) (payload : payloadDetails) : Prop :=
  callFails client (Call.listMembers payload.Owner) = false ∧
  callFails client (Call.listCollaborators payload.Owner payload.Repository) = false ∧
  callFails client (Call.getContents payload.Owner payload.Repository "OWNERS") = false

/-- Two runes are the same up to case, said without the code of
`strings.EqualFold`: they are equal; or both are ASCII and have the same lower
case letter; or one of them is not ASCII and the Unicode table of simple
folding relates the smaller one to the larger one. -/
def sameRuneUpToCase (unicodeFold : Char → Char → Bool) (a b : Char) : Prop :=
  a = b ∨
  (a.toNat < 128 ∧ b.toNat < 128 ∧ a.toLower = b.toLower) ∨
  ((128 ≤ a.toNat ∨ 128 ≤ b.toNat) ∧
    ((a.toNat < b.toNat ∧ unicodeFold a b = true) ∨
      (b.toNat < a.toNat ∧ unicodeFold b a = true)))

/-- Case-insensitive equality of two strings: they have the same number of
runes, and these are pairwise the same up to case. -/
def equalUpToCase (env : Env) (s t : String) : Prop :=
  List.Forall₂ (sameRuneUpToCase env.simpleFoldEq) s.data t.data

/-- The string has ASCII runes only, as the logins of GitHub have. -/
def isASCII (s : String) : Prop :=
  ∀ c ∈ s.data, c.toNat < 128

/-! ## A concrete environment: the repository `acme/widgets` -/

/-- An OWNERS document naming `carol` as approver. -/
def demoOwners : String := "approvers:\n- carol\n"

/-- A host on which `acme` has the public member `dave`, `acme/widgets` the
collaborator `erin` and an OWNERS file, and pull request 42 one comment. -/
def demoHost : Host where
  ListMembers := fun org =>
    if org = "acme" then MembersResult.ok [⟨some "dave"⟩]
    else MembersResult.httpError 404 "GET /orgs/members: 404 Not Found"
  ListCollaborators := fun owner repo =>
    if owner = "acme" ∧ repo = "widgets" then Except.ok [⟨some "erin"⟩]
    else Except.error "GET /collaborators: 403 Forbidden"
  GetContents := fun owner repo path =>
    if owner = "acme" ∧ repo = "widgets" ∧ path = "OWNERS" then
      ContentsResult.file (Except.ok demoOwners)
    else ContentsResult.err (some 404) "GET /contents: 404 Not Found"
  ListComments := fun owner repo number =>
    if owner = "acme" ∧ repo = "widgets" ∧ number = 42 then
      Except.ok [⟨⟨some "mallory"⟩, "please /ok-to-test now"⟩, ⟨⟨some "carol"⟩, "/ok-to-test"⟩]
    else Except.ok []

/-- The body of a `pull_request` event on `acme/widgets`, number 42, by `bob`. -/
def demoBody : String := "pull_request 42 acme/widgets bob"

/-- The decoded form of a webhook body that carries both `number` and
`issue.number`. -/
def demoJSON (number : Int) (fullName sender : String) : List (String × JSON) :=
  [("number", JSON.number ⟨number, 0⟩),
   ("issue", JSON.object [("number", JSON.number ⟨number, 0⟩)]),
   ("repository", JSON.object [("full_name", JSON.string fullName)]),
   ("sender", JSON.object [("login", JSON.string sender)])]

/-- An environment that decodes `demoOwners` and a few bodies, reads the
params from the keys present, and takes the first value of a header. -/
def demoEnv : Env where
  simpleFoldEq := fun _ _ => false
  yamlUnmarshal := fun s =>
    if s = demoOwners then Except.ok ⟨["carol"], []⟩
    else Except.error "yaml: unmarshal errors"
  jsonUnmarshal := fun s =>
    if s = demoBody then Except.ok (demoJSON 42 "acme/widgets" "bob")
    else if s = "pull_request 42 acme/widgets Carol" then
      Except.ok (demoJSON 42 "acme/widgets" "Carol")
    else if s = "issue_comment 7 acme/gadgets bob" then
      Except.ok (demoJSON 7 "acme/gadgets" "bob")
    else if s = "issue_comment 7 acme/widgets bob" then
      Except.ok (demoJSON 7 "acme/widgets" "bob")
    else Except.error "invalid character"
  UnmarshalParams := fun ps =>
    Except.ok
      { SecretRef := none,
        OrgPublicMemberAllowed :=
          match ps.lookup "orgPublicMemberAllowed" with
          | some (JSON.bool b) => b
          | _ => false,
        RepoMemberAllowed :=
          match ps.lookup "repoMemberAllowed" with
          | some (JSON.bool b) => b
          | _ => false }
  headerGet := fun h key => ((h.lookup key).getD []).headD ""
  SecretGet := fun _ _ => Except.error "secret not found"
  NewEnterpriseClient := fun _ _ => Except.error "parse: invalid URL"
  NewClient := fun _ => demoHost

/-- A request with the given event type and body, no params and no context. -/
def demoRequest (eventType body : String) : InterceptorRequest :=
  { Body := body, Header := [("X-GitHub-Event", [eventType])], InterceptorParams := [],
    Context := none }

/-- The same request, declared as form encoded. -/
def formRequest (eventType body : String) : InterceptorRequest :=
  { Body := body,
    Header := [("X-GitHub-Event", [eventType]),
      ("Content-Type", ["application/x-www-form-urlencoded"])],
    InterceptorParams := [], Context := none }

/-- The same request as `demoRequest`, with both membership flags set. -/
def flaggedRequest (eventType body : String) : InterceptorRequest :=
  { Body := body, Header := [("X-GitHub-Event", [eventType])],
    InterceptorParams :=
      [("orgPublicMemberAllowed", JSON.bool true), ("repoMemberAllowed", JSON.bool true)],
    Context := none }

/-- The payload of `demoBody`. -/
def demoPayload (sender : String) : payloadDetails :=
  { PrNumber := 42, Sender := sender, Owner := "acme", Repository := "widgets",
    DefaultBranch := "", SHA := "", BaseBranch := "" }

/-- The demo environment with a table of bodies and what they decode to. -/
def tableEnv (bodies : List (String × List (String × JSON))) : Env :=
  { demoEnv with
    jsonUnmarshal := fun s =>
      match bodies.lookup s with
      | some jsonMap => Except.ok jsonMap
      | none => Except.error "invalid character" }

/-- A body whose `number` is the string `"42"`. -/
def stringNumberBody : String :=
  "\x7b\"number\":\"42\",\"repository\":\x7b\"full_name\":\"acme/widgets\"\x7d,\"sender\":\x7b\"login\":\"bob\"\x7d\x7d"

/-- An `issue_comment` body whose `issue.number` is the string `"42"`. -/
def stringIssueNumberBody : String :=
  "\x7b\"issue\":\x7b\"number\":\"42\"\x7d,\"repository\":\x7b\"full_name\":\"acme/widgets\"\x7d,\"sender\":\x7b\"login\":\"bob\"\x7d\x7d"

/-- A body whose `repository.full_name` is `a/b/c`. -/
def threeSegmentsBody : String :=
  "\x7b\"number\":42,\"repository\":\x7b\"full_name\":\"a/b/c\"\x7d,\"sender\":\x7b\"login\":\"bob\"\x7d\x7d"

/-- A body without a `sender` object. -/
def noSenderBody : String :=
  "\x7b\"number\":42,\"repository\":\x7b\"full_name\":\"acme/widgets\"\x7d\x7d"

/-- A body whose `sender` object has no `login`. -/
def noLoginBody : String :=
  "\x7b\"number\":42,\"repository\":\x7b\"full_name\":\"acme/widgets\"\x7d,\"sender\":\x7b\x7d\x7d"

/-- A body whose `number` is `2 ^ 53 + 1`. -/
def bigNumberBody : String :=
  "\x7b\"number\":9007199254740993,\"repository\":\x7b\"full_name\":\"acme/widgets\"\x7d,\"sender\":\x7b\"login\":\"bob\"\x7d\x7d"

/-- The `issue_comment` body of the scenario: issue 42 of `acme/widgets`,
sender `bob`. -/
def scenarioBody : String :=
  "\x7b\"issue\":\x7b\"number\":42\x7d,\"repository\":\x7b\"full_name\":\"acme/widgets\"\x7d,\"sender\":\x7b\"login\":\"bob\"\x7d\x7d"

/-- The `repository` member of a decoded body. -/
def repositoryMember (fullName : String) : String × JSON :=
  ("repository", JSON.object [("full_name", JSON.string fullName)])

/-- The `sender` member of a decoded body. -/
def senderMember (login : String) : String × JSON :=
  ("sender", JSON.object [("login", JSON.string login)])

/-- An environment that decodes the bodies above as `json.Unmarshal` does. -/
def bodiesEnv : Env :=
  tableEnv
    [(stringNumberBody,
        [("number", JSON.string "42"), repositoryMember "acme/widgets", senderMember "bob"]),
     (stringIssueNumberBody,
        [("issue", JSON.object [("number", JSON.string "42")]),
          repositoryMember "acme/widgets", senderMember "bob"]),
     (threeSegmentsBody,
        [("number", JSON.number ⟨42, 0⟩), repositoryMember "a/b/c", senderMember "bob"]),
     (noSenderBody, [("number", JSON.number ⟨42, 0⟩), repositoryMember "acme/widgets"]),
     (noLoginBody,
        [("number", JSON.number ⟨42, 0⟩), repositoryMember "acme/widgets",
          ("sender", JSON.object [])]),
     (bigNumberBody,
        [("number", JSON.number (Float64.ofInt 9007199254740993)),
          repositoryMember "acme/widgets", senderMember "bob"]),
     (scenarioBody,
        [("issue", JSON.object [("number", JSON.number (Float64.ofInt 42))]),
          repositoryMember "acme/widgets", senderMember "bob"])]

/-- A host on which the retrieval of the OWNERS file of `room404/widgets`
fails with a server error, status 500; the text of the error is the one that
`go-github` builds from the method, the URL, the status and the message. -/
def room404Host : Host :=
  { demoHost with
    GetContents := fun _ _ _ =>
      ContentsResult.err (some 500)
        "GET https://api.github.com/repos/room404/widgets/contents/OWNERS: 500 Server Error []" }

/-- The payload of an event on `room404/widgets`. -/
def room404Payload : payloadDetails :=
  { demoPayload "bob" with Owner := "room404" }

/-! ## Properties -/

theorem any_getLogin_iff (users : List User) (sender : String) :
    users.any (fun user => user.GetLogin == sender) = true ↔
      sender ∈ users.map User.GetLogin := by
  simp only [List.any_eq_true, beq_iff_eq, List.mem_map]

theorem checkSenderOrgMembership_trace (client : Host) (payload : payloadDetails) :
    (checkSenderOrgMembership client payload).2 = [Call.listMembers payload.Owner] := by
  unfold checkSenderOrgMembership
  split
  · split <;> rfl
  · rfl
  · rfl

theorem checkSenderOrgMembership_ok (client : Host) (payload : payloadDetails)
    (users : List User) (h : client.ListMembers payload.Owner = MembersResult.ok users) :
    (checkSenderOrgMembership client payload).1
      = (users.any (fun user => user.GetLogin == payload.Sender), none) := by
  unfold checkSenderOrgMembership
  rw [h]

theorem checkSenderOrgMembership_true_iff (client : Host) (payload : payloadDetails) :
    (checkSenderOrgMembership client payload).1 = (true, none) ↔
      listedMember client payload := by
  unfold checkSenderOrgMembership listedMember
  cases h : client.ListMembers payload.Owner with
  | ok users => simp [any_getLogin_iff]
  | httpError status err => by_cases hs : status = 404 <;> simp [hs]
  | transportError err => simp

theorem checkSenderRepoMembership_trace (client : Host) (payload : payloadDetails) :
    (checkSenderRepoMembership client payload).2
      = [Call.listCollaborators payload.Owner payload.Repository] := by
  unfold checkSenderRepoMembership
  split <;> rfl

theorem checkSenderRepoMembership_true_iff (client : Host) (payload : payloadDetails) :
    (checkSenderRepoMembership client payload).1 = (true, none) ↔
      listedCollaborator client payload := by
  unfold checkSenderRepoMembership listedCollaborator
  cases h : client.ListCollaborators payload.Owner payload.Repository with
  | ok users => simp [any_getLogin_iff]
  | error err => simp

theorem getContentFromOwners_trace (client : Host) (path : String)
    (payload : payloadDetails) :
    (getContentFromOwners client path payload).2
      = [Call.getContents payload.Owner payload.Repository path] := by
  unfold getContentFromOwners
  split <;> rfl

theorem ownersStep_trace (env : Env) (client : Host) (payload : payloadDetails) :
    (ownersStep env client payload).2
      = [Call.getContents payload.Owner payload.Repository "OWNERS"] := by
  have h := getContentFromOwners_trace client "OWNERS" payload
  unfold ownersStep
  split
  · rename_i e t heq
    rw [heq] at h
    split <;> exact h
  · rename_i c t heq
    rw [heq] at h
    exact h

theorem userInOwnerFile_true_iff (env : Env) (ownerContent sender : String) :
    userInOwnerFile env ownerContent sender = (true, none) ↔
      ∃ oc, env.yamlUnmarshal ownerContent = Except.ok oc ∧
        ∃ owner ∈ oc.Approvers ++ oc.Reviewers, EqualFold env owner sender = true := by
  unfold userInOwnerFile
  cases h : env.yamlUnmarshal ownerContent with
  | error err => simp
  | ok oc => simp [or_and_right, exists_or]

theorem ownersStep_true_iff (env : Env) (client : Host) (payload : payloadDetails) :
    (ownersStep env client payload).1 = (true, none) ↔ ownerListed env client payload := by
  unfold ownersStep getContentFromOwners ownerListed
  cases h : client.GetContents payload.Owner payload.Repository "OWNERS" with
  | err status e => by_cases hc : Contains e "404" = true <;> simp [hc]
  | directory =>
    simp only [reduceCtorEq, false_and, exists_false, iff_false]
    split <;> simp
  | file content =>
    cases content with
    | error e => by_cases hc : Contains e "404" = true <;> simp [hc]
    | ok data => simp [userInOwnerFile_true_iff]

theorem checkSenderOrgMembership_err (client : Host) (payload : payloadDetails)
    (b : Bool) (e : error) (h : (checkSenderOrgMembership client payload).1 = (b, some e)) :
    callFails client (Call.listMembers payload.Owner) = true := by
  unfold checkSenderOrgMembership at h
  cases hm : client.ListMembers payload.Owner with
  | ok users => rw [hm] at h; simp at h
  | httpError status err => simp [callFails, hm]
  | transportError err => simp [callFails, hm]

theorem checkSenderRepoMembership_err (client : Host) (payload : payloadDetails)
    (b : Bool) (e : error) (h : (checkSenderRepoMembership client payload).1 = (b, some e)) :
    callFails client (Call.listCollaborators payload.Owner payload.Repository) = true := by
  unfold checkSenderRepoMembership at h
  cases hm : client.ListCollaborators payload.Owner payload.Repository with
  | ok users => rw [hm] at h; simp at h
  | error err => simp [callFails, hm]

theorem repoStep_trace (env : Env) (client : Host) (payload : payloadDetails)
    (p : GitHubOwnersInterceptor) :
    (repoStep env client payload p).2 <+:
      (if p.RepoMemberAllowed then [Call.listCollaborators payload.Owner payload.Repository]
       else []) ++ [Call.getContents payload.Owner payload.Repository "OWNERS"] := by
  unfold repoStep
  by_cases hp : p.RepoMemberAllowed = true
  · have ht := checkSenderRepoMembership_trace client payload
    rcases hr : checkSenderRepoMembership client payload with ⟨⟨b, e⟩, t⟩
    rw [hr] at ht
    simp only at ht
    subst ht
    cases e with
    | some err => simp [hp]
    | none => cases b <;> simp [hp, ownersStep_trace]
  · simp [hp, ownersStep_trace]

theorem repoStep_true_iff (env : Env) (client : Host) (payload : payloadDetails)
    (p : GitHubOwnersInterceptor)
    (hok : ∀ c ∈ (repoStep env client payload p).2, callFails client c = false) :
    (repoStep env client payload p).1 = (true, none) ↔
      (p.RepoMemberAllowed = true ∧ listedCollaborator client payload) ∨
        ownerListed env client payload := by
  unfold repoStep at hok ⊢
  by_cases hp : p.RepoMemberAllowed = true
  · have ht := checkSenderRepoMembership_trace client payload
    have hi := checkSenderRepoMembership_true_iff client payload
    have he := checkSenderRepoMembership_err client payload
    rcases hr : checkSenderRepoMembership client payload with ⟨⟨b, e⟩, t⟩
    rw [hr] at ht hi he
    simp only at ht hi he
    subst ht
    cases e with
    | some err =>
      have h1 := he b err rfl
      have h2 := hok (Call.listCollaborators payload.Owner payload.Repository)
        (by simp [hp, hr])
      rw [h1] at h2
      exact absurd h2 (by decide)
    | none =>
      cases b with
      | true => simp [hp, hi.mp rfl]
      | false =>
        have hn : ¬ listedCollaborator client payload := fun h => by simpa using hi.mpr h
        simp [hp, hn, ownersStep_true_iff]
  · simp [hp, ownersStep_true_iff]

theorem repoStep_granted (env : Env) (client : Host) (payload : payloadDetails)
    (p : GitHubOwnersInterceptor) (hp : p.RepoMemberAllowed = true)
    (h : listedCollaborator client payload) :
    repoStep env client payload p
      = ((true, none), [Call.listCollaborators payload.Owner payload.Repository]) := by
  have ht := checkSenderRepoMembership_trace client payload
  have hi := (checkSenderRepoMembership_true_iff client payload).mpr h
  unfold repoStep
  rcases hr : checkSenderRepoMembership client payload with ⟨⟨b, e⟩, t⟩
  rw [hr] at ht hi
  simp only [Prod.mk.injEq] at ht hi
  obtain ⟨rfl, rfl⟩ := hi
  subst ht
  simp [hp]

theorem checkOwnershipAndMembership_trace (env : Env) (client : Host)
    (payload : payloadDetails) (p : GitHubOwnersInterceptor) :
    (checkOwnershipAndMembership env client payload p).2 <+: plannedCalls payload p := by
  unfold checkOwnershipAndMembership plannedCalls
  have hrs := repoStep_trace env client payload p
  by_cases hp : p.OrgPublicMemberAllowed = true
  · have ht := checkSenderOrgMembership_trace client payload
    rcases hr : checkSenderOrgMembership client payload with ⟨⟨b, e⟩, t⟩
    rw [hr] at ht
    simp only at ht
    subst ht
    cases e with
    | some err => simp [hp]
    | none =>
      cases b with
      | true => simp [hp]
      | false =>
        simp only [hp, if_true, List.append_assoc, List.singleton_append]
        exact (List.prefix_cons_inj _).mpr hrs
  · simpa [hp] using hrs

theorem checkOwnershipAndMembership_true_iff (env : Env) (client : Host)
    (payload : payloadDetails) (p : GitHubOwnersInterceptor)
    (hok : ∀ c ∈ (checkOwnershipAndMembership env client payload p).2,
      callFails client c = false) :
    (checkOwnershipAndMembership env client payload p).1 = (true, none) ↔
      (p.OrgPublicMemberAllowed = true ∧ listedMember client payload) ∨
      (p.RepoMemberAllowed = true ∧ listedCollaborator client payload) ∨
      ownerListed env client payload := by
  unfold checkOwnershipAndMembership at hok ⊢
  by_cases hp : p.OrgPublicMemberAllowed = true
  · have ht := checkSenderOrgMembership_trace client payload
    have hi := checkSenderOrgMembership_true_iff client payload
    have he := checkSenderOrgMembership_err client payload
    rcases hr : checkSenderOrgMembership client payload with ⟨⟨b, e⟩, t⟩
    rw [hr] at ht hi he
    simp only at ht hi he
    subst ht
    cases e with
    | some err =>
      have h1 := he b err rfl
      have h2 := hok (Call.listMembers payload.Owner) (by simp [hp, hr])
      rw [h1] at h2
      exact absurd h2 (by decide)
    | none =>
      cases b with
      | true => simp [hp, hi.mp rfl]
      | false =>
        have hn : ¬ listedMember client payload := fun h => by simpa using hi.mpr h
        have hok2 : ∀ c ∈ (repoStep env client payload p).2, callFails client c = false := by
          intro c hc
          exact hok c (by simp [hp, hr, hc])
        simp [hp, hn, repoStep_true_iff env client payload p hok2]
  · simp only [hp] at hok
    simp [hp, repoStep_true_iff env client payload p hok]

theorem checkOwnershipAndMembership_org_granted (env : Env) (client : Host)
    (payload : payloadDetails) (p : GitHubOwnersInterceptor)
    (hp : p.OrgPublicMemberAllowed = true) (h : listedMember client payload) :
    checkOwnershipAndMembership env client payload p
      = ((true, none), [Call.listMembers payload.Owner]) := by
  have ht := checkSenderOrgMembership_trace client payload
  have hi := (checkSenderOrgMembership_true_iff client payload).mpr h
  unfold checkOwnershipAndMembership
  rcases hr : checkSenderOrgMembership client payload with ⟨⟨b, e⟩, t⟩
  rw [hr] at ht hi
  simp only [Prod.mk.injEq] at ht hi
  obtain ⟨rfl, rfl⟩ := hi
  subst ht
  simp [hp]

theorem ownersStep_granted_no_error (env : Env) (client : Host) (payload : payloadDetails)
    (h : (ownersStep env client payload).1.1 = true) :
    (ownersStep env client payload).1 = (true, none) := by
  unfold ownersStep at h ⊢
  rcases hr : getContentFromOwners client "OWNERS" payload with ⟨⟨c, e⟩, t⟩
  rw [hr] at h
  cases e with
  | some err =>
    by_cases hc : Contains err "404" = true
    · simp [hc] at h
    · simp [hc] at h
  | none =>
    simp only at h ⊢
    unfold userInOwnerFile at h ⊢
    cases hy : env.yamlUnmarshal c with
    | error err => rw [hy] at h; simp at h
    | ok oc =>
      rw [hy] at h
      simp only at h ⊢
      rw [h]

theorem repoStep_granted_no_error (env : Env) (client : Host) (payload : payloadDetails)
    (p : GitHubOwnersInterceptor) (h : (repoStep env client payload p).1.1 = true) :
    (repoStep env client payload p).1 = (true, none) := by
  have ho := ownersStep_granted_no_error env client payload
  unfold repoStep at h ⊢
  by_cases hp : p.RepoMemberAllowed = true
  · rcases hr : checkSenderRepoMembership client payload with ⟨⟨b, e⟩, t⟩
    rw [hr] at h
    cases e with
    | some err => simp [hp] at h
    | none =>
      cases b with
      | true => simp [hp]
      | false =>
        simp only [hp, if_true] at h ⊢
        exact ho h
  · simp only [hp] at h ⊢
    exact ho h

theorem checkOwnershipAndMembership_granted_no_error (env : Env) (client : Host)
    (payload : payloadDetails) (p : GitHubOwnersInterceptor)
    (h : (checkOwnershipAndMembership env client payload p).1.1 = true) :
    (checkOwnershipAndMembership env client payload p).1 = (true, none) := by
  have ho := repoStep_granted_no_error env client payload p
  unfold checkOwnershipAndMembership at h ⊢
  by_cases hp : p.OrgPublicMemberAllowed = true
  · rcases hr : checkSenderOrgMembership client payload with ⟨⟨b, e⟩, t⟩
    rw [hr] at h
    cases e with
    | some err => simp [hp] at h
    | none =>
      cases b with
      | true => simp [hp]
      | false =>
        simp only [hp, if_true] at h ⊢
        exact ho h
  · simp only [hp] at h ⊢
    exact ho h

theorem checkOwnershipAndMembership_repo_granted (env : Env) (client : Host)
    (payload : payloadDetails) (p : GitHubOwnersInterceptor)
    (hp : p.RepoMemberAllowed = true) (h : listedCollaborator client payload) :
    Call.getContents payload.Owner payload.Repository "OWNERS"
      ∉ (checkOwnershipAndMembership env client payload p).2 := by
  have ht := checkSenderOrgMembership_trace client payload
  have hg := repoStep_granted env client payload p hp h
  unfold checkOwnershipAndMembership
  by_cases ho : p.OrgPublicMemberAllowed = true
  · rcases hr : checkSenderOrgMembership client payload with ⟨⟨b, e⟩, t⟩
    rw [hr] at ht
    simp only at ht
    subst ht
    cases e with
    | some err => simp [ho]
    | none => cases b <;> simp [ho, hg]
  · simp [ho, hg]

/-- C1: when no remote call that `checkOwnershipAndMembership` makes fails, it
returns true (always with a nil error) exactly when the organisation flag is
set and the sender is a listed public member, or the repository flag is set
and the sender is a listed collaborator, or the OWNERS file is retrieved and
names the sender up to case.  The calls are a beginning of the sequence
members, collaborators, OWNERS; a grant by the members ends the evaluation
after that one call, and after a grant by the collaborators the OWNERS file is
not retrieved. -/
theorem C1_checkOwnershipAndMembership_sources (env : Env) (client : Host)
    (payload : payloadDetails) (p : GitHubOwnersInterceptor)
    (hok : ∀ c ∈ (checkOwnershipAndMembership env client payload p).2,
      callFails client c = false) :
    ((checkOwnershipAndMembership env client payload p).1.1 = true ↔
      (p.OrgPublicMemberAllowed = true ∧ listedMember client payload) ∨
      (p.RepoMemberAllowed = true ∧ listedCollaborator client payload) ∨
      ownerListed env client payload) ∧
    ((checkOwnershipAndMembership env client payload p).1.1 = true →
      (checkOwnershipAndMembership env client payload p).1.2 = none) ∧
    (checkOwnershipAndMembership env client payload p).2 <+: plannedCalls payload p ∧
    (p.OrgPublicMemberAllowed = true → listedMember client payload →
      (checkOwnershipAndMembership env client payload p).2
        = [Call.listMembers payload.Owner]) ∧
    (p.RepoMemberAllowed = true → listedCollaborator client payload →
      Call.getContents payload.Owner payload.Repository "OWNERS"
        ∉ (checkOwnershipAndMembership env client payload p).2) := by
  refine ⟨?_, ?_, checkOwnershipAndMembership_trace env client payload p, ?_,
    checkOwnershipAndMembership_repo_granted env client payload p⟩
  · rw [← checkOwnershipAndMembership_true_iff env client payload p hok]
    constructor
    · exact checkOwnershipAndMembership_granted_no_error env client payload p
    · intro h
      rw [h]
  · intro h
    rw [checkOwnershipAndMembership_granted_no_error env client payload p h]
  · intro hp h
    rw [checkOwnershipAndMembership_org_granted env client payload p hp h]

/-- Witness of C1: on the demo host, with both flags set, `carol` is granted by
the OWNERS file after the two listings. -/
theorem C1_checkOwnershipAndMembership_sources_witness :
    (checkOwnershipAndMembership demoEnv demoHost (demoPayload "carol")
      ⟨none, true, true⟩).1.1 = true ∧
    (checkOwnershipAndMembership demoEnv demoHost (demoPayload "carol")
      ⟨none, true, true⟩).2 <+: plannedCalls (demoPayload "carol") ⟨none, true, true⟩ :=
  have h := C1_checkOwnershipAndMembership_sources demoEnv demoHost (demoPayload "carol")
    ⟨none, true, true⟩ (by decide)
  ⟨h.1.mpr (Or.inr (Or.inr ⟨demoOwners, ⟨["carol"], []⟩, rfl, rfl,
    "carol", by decide, by decide⟩)), h.2.2.1⟩

theorem checkSenderOrgMembership_propagates (client : Host) (payload : payloadDetails)
    (h : propagatedFailure client (Call.listMembers payload.Owner) = true) :
    ∃ e, (checkSenderOrgMembership client payload).1 = (false, some e) := by
  unfold checkSenderOrgMembership
  simp only [propagatedFailure] at h
  cases hm : client.ListMembers payload.Owner with
  | ok users => rw [hm] at h; simp at h
  | httpError status err =>
    rw [hm] at h
    have hs : ¬ status = 404 := by simpa using h
    exact ⟨err, by simp [hs]⟩
  | transportError err => exact ⟨err, rfl⟩

theorem checkSenderRepoMembership_propagates (client : Host) (payload : payloadDetails)
    (h : propagatedFailure client
      (Call.listCollaborators payload.Owner payload.Repository) = true) :
    ∃ e, (checkSenderRepoMembership client payload).1 = (false, some e) := by
  unfold checkSenderRepoMembership
  simp only [propagatedFailure, hardFailure, callFails] at h
  cases hm : client.ListCollaborators payload.Owner payload.Repository with
  | ok users => rw [hm] at h; simp at h
  | error err => exact ⟨err, rfl⟩

theorem ownersStep_propagates (env : Env) (client : Host) (payload : payloadDetails)
    (h : propagatedFailure client
      (Call.getContents payload.Owner payload.Repository "OWNERS") = true) :
    ∃ e, (ownersStep env client payload).1 = (false, some e) := by
  unfold ownersStep getContentFromOwners
  simp only [propagatedFailure] at h
  cases hm : client.GetContents payload.Owner payload.Repository "OWNERS" with
  | err status e =>
    rw [hm] at h
    have hc : ¬ Contains e "404" = true := by
      simp only [Bool.and_eq_true, Bool.not_eq_true'] at h
      rw [h.2]
      decide
    exact ⟨e, by simp [hc]⟩
  | directory => rw [hm] at h; simp at h
  | file content => rw [hm] at h; simp at h

theorem repoStep_propagates (env : Env) (client : Host) (payload : payloadDetails)
    (p : GitHubOwnersInterceptor) (c : Call) (hc : c ∈ (repoStep env client payload p).2)
    (hf : propagatedFailure client c = true) :
    ∃ e, (repoStep env client payload p).1 = (false, some e) := by
  have hown : c ∈ (ownersStep env client payload).2 →
      ∃ e, (ownersStep env client payload).1 = (false, some e) := by
    intro h
    rw [ownersStep_trace] at h
    rw [List.mem_singleton] at h
    subst h
    exact ownersStep_propagates env client payload hf
  unfold repoStep at hc ⊢
  by_cases hp : p.RepoMemberAllowed = true
  · have ht := checkSenderRepoMembership_trace client payload
    have he := checkSenderRepoMembership_propagates client payload
    rcases hr : checkSenderRepoMembership client payload with ⟨⟨b, e⟩, t⟩
    rw [hr] at ht he hc
    simp only at ht he
    subst ht
    cases e with
    | some err => exact ⟨err, by simp [hp]⟩
    | none =>
      have hne : c ≠ Call.listCollaborators payload.Owner payload.Repository := by
        intro h
        subst h
        obtain ⟨e, he⟩ := he hf
        simp at he
      cases b with
      | true =>
        simp only [hp, if_true, List.mem_singleton] at hc
        exact absurd hc hne
      | false =>
        simp only [hp, if_true, List.mem_append, List.mem_singleton] at hc ⊢
        rcases hc with hc | hc
        · exact absurd hc hne
        · exact hown hc
  · simp only [hp] at hc ⊢
    exact hown hc

/-- C2 as amended: a remote call made by `checkOwnershipAndMembership` that
returns an error other than a member listing answered with status 404 and
other than the not-found result of the OWNERS retrieval (status 404) makes it
return an error; for an error of the OWNERS retrieval this is stated when the
text of the error does not contain `404`, and nothing is said of the others. -/
theorem C2_remote_errors_propagate (env : Env) (client : Host) (payload : payloadDetails)
    (p : GitHubOwnersInterceptor) (c : Call)
    (hc : c ∈ (checkOwnershipAndMembership env client payload p).2)
    (hf : propagatedFailure client c = true) :
    ∃ e, (checkOwnershipAndMembership env client payload p).1 = (false, some e) := by
  have hrepo := repoStep_propagates env client payload p c
  unfold checkOwnershipAndMembership at hc ⊢
  by_cases hp : p.OrgPublicMemberAllowed = true
  · have ht := checkSenderOrgMembership_trace client payload
    have he := checkSenderOrgMembership_propagates client payload
    rcases hr : checkSenderOrgMembership client payload with ⟨⟨b, e⟩, t⟩
    rw [hr] at ht he hc
    simp only at ht he
    subst ht
    cases e with
    | some err => exact ⟨err, by simp [hp]⟩
    | none =>
      have hne : c ≠ Call.listMembers payload.Owner := by
        intro h
        subst h
        obtain ⟨e, he⟩ := he hf
        simp at he
      cases b with
      | true =>
        simp only [hp, if_true, List.mem_singleton] at hc
        exact absurd hc hne
      | false =>
        simp only [hp, if_true, List.mem_append, List.mem_singleton] at hc ⊢
        rcases hc with hc | hc
        · exact absurd hc hne
        · exact hrepo hc hf
  · simp only [hp] at hc ⊢
    exact hrepo hc hf

/-- Witness of C2: the collaborators of a repository other than `acme/widgets`
cannot be listed on the demo host, and the evaluation returns an error. -/
theorem C2_remote_errors_propagate_witness :
    ∃ e, (checkOwnershipAndMembership demoEnv demoHost
      { demoPayload "bob" with Repository := "gadgets" } ⟨none, false, true⟩).1
        = (false, some e) :=
  C2_remote_errors_propagate demoEnv demoHost
    { demoPayload "bob" with Repository := "gadgets" } ⟨none, false, true⟩
    (Call.listCollaborators "acme" "gadgets") (by decide) (by decide)

/-- The test of line 235 on the text of the error: the retrieval of the OWNERS
file of `room404/widgets` fails with status 500, which is not a not-found; the
text of the error contains `404` (in the URL), and the evaluation returns
`(false, nil)` as if there were no OWNERS file. -/
theorem ownersRetrieval_500_swallowed :
    Call.getContents "room404" "widgets" "OWNERS"
      ∈ (checkOwnershipAndMembership demoEnv room404Host room404Payload
          ⟨none, false, false⟩).2 ∧
    hardFailure room404Host (Call.getContents "room404" "widgets" "OWNERS") = true ∧
    (checkOwnershipAndMembership demoEnv room404Host room404Payload
      ⟨none, false, false⟩).1 = (false, none) := by
  decide

/-- Counterexample to C2 as stated: the member listing of an organisation that
the demo host does not know returns an error (status 404); the call is made,
it is not the OWNERS retrieval, and the evaluation returns `(false, nil)`. -/
theorem C2_counterexample :
    Call.listMembers "umbrella" ∈ (checkOwnershipAndMembership
      { demoEnv with yamlUnmarshal := fun _ => Except.ok ⟨["carol"], []⟩ }
      { demoHost with GetContents := fun _ _ _ => ContentsResult.file (Except.ok "") }
      { demoPayload "bob" with Owner := "umbrella" } ⟨none, true, false⟩).2 ∧
    hardFailure
      { demoHost with GetContents := fun _ _ _ => ContentsResult.file (Except.ok "") }
      (Call.listMembers "umbrella") = true ∧
    (checkOwnershipAndMembership
      { demoEnv with yamlUnmarshal := fun _ => Except.ok ⟨["carol"], []⟩ }
      { demoHost with GetContents := fun _ _ _ => ContentsResult.file (Except.ok "") }
      { demoPayload "bob" with Owner := "umbrella" } ⟨none, true, false⟩).1
        = (false, none) := by
  decide

theorem Process_of_reachesDecision (env : Env) (r : InterceptorRequest)
    (p : GitHubOwnersInterceptor) (client : Host) (payload : payloadDetails)
    (h : reachesDecision env r p client payload) :
    (Process env r).1 = Outcome.ret (processDecision env client payload p).1 ∧
    (Process env r).2 = (getSecret env r p).2 ++
      [Call.parseBody r.Body (env.headerGet r.Header "X-GitHub-Event")] ++
      (processDecision env client payload p).2 := by
  obtain ⟨hct, hparams, hev, token, hsec, hcl, hbody⟩ := h
  have hany : acceptedEventTypes.any (fun allowedEvent =>
      env.headerGet r.Header "X-GitHub-Event" == allowedEvent) = true := by
    rw [List.any_eq_true]
    exact ⟨_, hev, by simp⟩
  unfold Process
  rw [if_neg hct, hparams]
  simp only [hany, if_true]
  unfold processAccepted
  rcases hs : getSecret env r p with ⟨o, t⟩
  rw [hs] at hsec
  simp only at hsec
  subst hsec
  simp only [hcl, hbody, and_self]

theorem processDecision_of_not_granted (env : Env) (client : Host) (payload : payloadDetails)
    (p : GitHubOwnersInterceptor)
    (h : (checkOwnershipAndMembership env client payload p).1 = (false, none)) :
    (processDecision env client payload p).1
      = commentVerdict (allowedOkToTestFromAnOwner env client payload p).1 ∧
    (processDecision env client payload p).2
      = (checkOwnershipAndMembership env client payload p).2 ++
        (allowedOkToTestFromAnOwner env client payload p).2 := by
  unfold processDecision
  rcases hr : checkOwnershipAndMembership env client payload p with ⟨⟨b, e⟩, t⟩
  rw [hr] at h
  simp only [Prod.mk.injEq] at h
  obtain ⟨rfl, rfl⟩ := h
  simp only
  rcases hr2 : allowedOkToTestFromAnOwner env client payload p with ⟨⟨b2, e2⟩, t2⟩
  cases e2 with
  | some err => simp [commentVerdict]
  | none => cases b2 <;> simp [commentVerdict]

theorem getStringPullRequestComment_trace (client : Host) (payload : payloadDetails) :
    (getStringPullRequestComment client payload).2
      = [Call.listComments payload.Owner payload.Repository payload.PrNumber] := by
  unfold getStringPullRequestComment
  split <;> rfl

theorem allowedOkToTestFromAnOwner_lists (env : Env) (client : Host)
    (payload : payloadDetails) (p : GitHubOwnersInterceptor) :
    Call.listComments payload.Owner payload.Repository payload.PrNumber
      ∈ (allowedOkToTestFromAnOwner env client payload p).2 := by
  have ht := getStringPullRequestComment_trace client payload
  unfold allowedOkToTestFromAnOwner
  rcases hr : getStringPullRequestComment client payload with ⟨⟨cs, e⟩, t⟩
  rw [hr] at ht
  simp only at ht
  subst ht
  cases e <;> simp

theorem checkOwnershipAndMembership_false_of_steps (env : Env) (client : Host)
    (payload : payloadDetails) (p : GitHubOwnersInterceptor)
    (horg : p.OrgPublicMemberAllowed = true →
      (checkSenderOrgMembership client payload).1 = (false, none))
    (hrepo : p.RepoMemberAllowed = true →
      (checkSenderRepoMembership client payload).1 = (false, none))
    (hown : (ownersStep env client payload).1 = (false, none)) :
    (checkOwnershipAndMembership env client payload p).1 = (false, none) := by
  have hrs : (repoStep env client payload p).1 = (false, none) := by
    unfold repoStep
    by_cases hp : p.RepoMemberAllowed = true
    · have h := hrepo hp
      rcases hr : checkSenderRepoMembership client payload with ⟨⟨b, e⟩, t⟩
      rw [hr] at h
      simp only [Prod.mk.injEq] at h
      obtain ⟨rfl, rfl⟩ := h
      simp [hp, hown]
    · simp [hp, hown]
  unfold checkOwnershipAndMembership
  by_cases hp : p.OrgPublicMemberAllowed = true
  · have h := horg hp
    rcases hr : checkSenderOrgMembership client payload with ⟨⟨b, e⟩, t⟩
    rw [hr] at h
    simp only [Prod.mk.injEq] at h
    obtain ⟨rfl, rfl⟩ := h
    simp [hp, hrs]
  · simp [hp, hrs]

theorem checkOwnershipAndMembership_not_found (env : Env) (client : Host)
    (payload : payloadDetails) (p : GitHubOwnersInterceptor) (status : Option Nat)
    (e : error)
    (horg : p.OrgPublicMemberAllowed = true →
      (checkSenderOrgMembership client payload).1 = (false, none))
    (hrepo : p.RepoMemberAllowed = true →
      (checkSenderRepoMembership client payload).1 = (false, none))
    (hnf : client.GetContents payload.Owner payload.Repository "OWNERS"
      = ContentsResult.err status e)
    (h404 : Contains e "404" = true) :
    (checkOwnershipAndMembership env client payload p).1 = (false, none) := by
  apply checkOwnershipAndMembership_false_of_steps env client payload p horg hrepo
  unfold ownersStep getContentFromOwners
  rw [hnf]
  simp [h404]

/-- C3: when each enabled membership step returns false without error and the
retrieval of the OWNERS file returns the not-found error (a message containing
`404`), `checkOwnershipAndMembership` returns `(false, nil)`; and a `Process`
that reaches the decision with this client, payload and params lists the
pull-request comments and answers with what the comment scan gives, a verdict
with status OK when the scan returns without error. -/
theorem C3_owners_not_found_is_no_policy (env : Env) (client : Host)
    (payload : payloadDetails) (p : GitHubOwnersInterceptor) (status : Option Nat)
    (e : error)
    (horg : p.OrgPublicMemberAllowed = true →
      (checkSenderOrgMembership client payload).1 = (false, none))
    (hrepo : p.RepoMemberAllowed = true →
      (checkSenderRepoMembership client payload).1 = (false, none))
    (hnf : client.GetContents payload.Owner payload.Repository "OWNERS"
      = ContentsResult.err status e)
    (h404 : Contains e "404" = true) :
    (checkOwnershipAndMembership env client payload p).1 = (false, none) ∧
    ∀ r : InterceptorRequest, reachesDecision env r p client payload →
      (Process env r).1
        = Outcome.ret (commentVerdict (allowedOkToTestFromAnOwner env client payload p).1) ∧
      Call.listComments payload.Owner payload.Repository payload.PrNumber
        ∈ (Process env r).2 ∧
      ∀ b, (allowedOkToTestFromAnOwner env client payload p).1 = (b, none) →
        (Process env r).1 = Outcome.ret (verdict b) := by
  have hf := checkOwnershipAndMembership_not_found env client payload p status e horg hrepo
    hnf h404
  refine ⟨hf, ?_⟩
  intro r hr
  obtain ⟨h1, h2⟩ := Process_of_reachesDecision env r p client payload hr
  obtain ⟨h3, h4⟩ := processDecision_of_not_granted env client payload p hf
  refine ⟨by rw [h1, h3], ?_, ?_⟩
  · rw [h2, h4]
    simp [allowedOkToTestFromAnOwner_lists]
  · intro b hb
    rw [h1, h3, hb]
    rfl

/-- Witness of C3: `acme/gadgets` has no OWNERS file on the demo host; the
evaluation of `bob` returns `(false, nil)` and an `issue_comment` request on
that repository is answered by the comment scan. -/
theorem C3_owners_not_found_is_no_policy_witness :
    (checkOwnershipAndMembership demoEnv demoHost
      { demoPayload "bob" with PrNumber := 7, Repository := "gadgets" }
      ⟨none, false, false⟩).1 = (false, none) ∧
    Call.listComments "acme" "gadgets" 7
      ∈ (Process demoEnv (demoRequest "issue_comment" "issue_comment 7 acme/gadgets bob")).2 :=
  have h := C3_owners_not_found_is_no_policy demoEnv demoHost
    { demoPayload "bob" with PrNumber := 7, Repository := "gadgets" } ⟨none, false, false⟩
    (some 404) "GET /contents: 404 Not Found" (by decide) (by decide) rfl (by decide)
  ⟨h.1, (h.2 (demoRequest "issue_comment" "issue_comment 7 acme/gadgets bob")
    ⟨by decide, rfl, by decide, "", rfl, rfl, rfl⟩).2.1⟩

/-! ### Case folding -/

theorem Char_toNat_inj (a b : Char) (h : a.toNat = b.toNat) : a = b := by
  have h2 := congrArg Char.ofNat h
  simpa using h2

theorem toNat_toLower_upper (n : Nat) (h1 : 65 ≤ n) (h2 : n ≤ 90) :
    (Char.ofNat n).toLower.toNat = n + 32 := by
  interval_cases n <;> rfl

theorem toNat_toLower (c : Char) :
    c.toLower.toNat = if 65 ≤ c.toNat ∧ c.toNat ≤ 90 then c.toNat + 32 else c.toNat := by
  by_cases h : 65 ≤ c.toNat ∧ c.toNat ≤ 90
  · rw [if_pos h]
    have h2 := toNat_toLower_upper c.toNat h.1 h.2
    rwa [Char.ofNat_toNat] at h2
  · rw [if_neg h]
    unfold Char.toLower
    simp only [ge_iff_le, h, if_false]

theorem toLower_eq_iff (a b : Char) :
    a.toLower = b.toLower ↔
      (if 65 ≤ a.toNat ∧ a.toNat ≤ 90 then a.toNat + 32 else a.toNat)
        = (if 65 ≤ b.toNat ∧ b.toNat ≤ 90 then b.toNat + 32 else b.toNat) := by
  rw [← toNat_toLower, ← toNat_toLower]
  constructor
  · intro h
    rw [h]
  · exact Char_toNat_inj _ _

/-- The comparison of one pair of runes by `strings.EqualFold` is the relation
"the same up to case". -/
theorem foldRuneEq_iff (f : Char → Char → Bool) (sr tr : Char) :
    foldRuneEq f sr tr = true ↔ sameRuneUpToCase f sr tr := by
  by_cases heq : tr = sr
  · have hL : foldRuneEq f sr tr = true := by
      unfold foldRuneEq
      rw [if_pos heq]
    rw [hL]
    exact ⟨fun _ => Or.inl heq.symm, fun _ => rfl⟩
  · have hne : tr.toNat ≠ sr.toNat := fun h => heq (Char_toNat_inj _ _ h)
    have hne2 : ¬ sr = tr := fun h => heq h.symm
    unfold sameRuneUpToCase
    rw [toLower_eq_iff]
    by_cases hlt : tr.toNat < sr.toNat
    · by_cases h128 : sr.toNat < 128
      · have hL : foldRuneEq f sr tr = (decide (65 ≤ tr.toNat) && decide (tr.toNat ≤ 90) &&
            decide (sr.toNat = tr.toNat + 32)) := by
          unfold foldRuneEq
          simp only [heq, hlt, h128, if_true, if_false]
        rw [hL, Bool.and_eq_true, Bool.and_eq_true, decide_eq_true_eq, decide_eq_true_eq,
          decide_eq_true_eq]
        constructor
        · rintro ⟨⟨h1, h2⟩, h3⟩
          refine Or.inr (Or.inl ⟨h128, by omega, ?_⟩)
          split_ifs <;> omega
        · rintro (h | ⟨-, -, h⟩ | ⟨h, -⟩)
          · exact absurd h hne2
          · split_ifs at h <;> omega
          · omega
      · have hL : foldRuneEq f sr tr = f tr sr := by
          unfold foldRuneEq
          simp only [heq, hlt, h128, if_true, if_false]
        rw [hL]
        constructor
        · intro h
          exact Or.inr (Or.inr ⟨Or.inl (by omega), Or.inr ⟨hlt, h⟩⟩)
        · rintro (h | ⟨h, -, -⟩ | ⟨-, ⟨h, -⟩ | ⟨-, h⟩⟩)
          · exact absurd h hne2
          · exact absurd h h128
          · omega
          · exact h
    · have hgt : sr.toNat < tr.toNat := by omega
      by_cases h128 : tr.toNat < 128
      · have hL : foldRuneEq f sr tr = (decide (65 ≤ sr.toNat) && decide (sr.toNat ≤ 90) &&
            decide (tr.toNat = sr.toNat + 32)) := by
          unfold foldRuneEq
          simp only [heq, hlt, h128, if_true, if_false]
        rw [hL, Bool.and_eq_true, Bool.and_eq_true, decide_eq_true_eq, decide_eq_true_eq,
          decide_eq_true_eq]
        constructor
        · rintro ⟨⟨h1, h2⟩, h3⟩
          refine Or.inr (Or.inl ⟨by omega, h128, ?_⟩)
          split_ifs <;> omega
        · rintro (h | ⟨-, -, h⟩ | ⟨h, -⟩)
          · exact absurd h hne2
          · split_ifs at h <;> omega
          · omega
      · have hL : foldRuneEq f sr tr = f sr tr := by
          unfold foldRuneEq
          simp only [heq, hlt, h128, if_true, if_false]
        rw [hL]
        constructor
        · intro h
          exact Or.inr (Or.inr ⟨Or.inr (by omega), Or.inl ⟨hgt, h⟩⟩)
        · rintro (h | ⟨-, h, -⟩ | ⟨-, ⟨-, h⟩ | ⟨h, -⟩⟩)
          · exact absurd h hne2
          · exact absurd h h128
          · exact h
          · omega

theorem equalFoldRunes_iff (f : Char → Char → Bool) (s t : List Char) :
    equalFoldRunes f s t = true ↔ List.Forall₂ (sameRuneUpToCase f) s t := by
  induction s generalizing t with
  | nil =>
    cases t with
    | nil => simp [equalFoldRunes]
    | cons d t => simp [equalFoldRunes]
  | cons c s ih =>
    cases t with
    | nil => simp [equalFoldRunes]
    | cons d t =>
      simp only [equalFoldRunes, Bool.and_eq_true, List.forall₂_cons, foldRuneEq_iff, ih]

/-- `strings.EqualFold` is case-insensitive equality. -/
theorem EqualFold_iff (env : Env) (s t : String) :
    EqualFold env s t = true ↔ equalUpToCase env s t := by
  unfold EqualFold equalUpToCase
  exact equalFoldRunes_iff env.simpleFoldEq s.data t.data

theorem forall₂_sameRune_ascii (f : Char → Char → Bool) (s t : List Char)
    (hs : ∀ c ∈ s, c.toNat < 128) (ht : ∀ c ∈ t, c.toNat < 128) :
    List.Forall₂ (sameRuneUpToCase f) s t ↔ s.map Char.toLower = t.map Char.toLower := by
  induction s generalizing t with
  | nil =>
    cases t with
    | nil => simp
    | cons d t => simp
  | cons c s ih =>
    cases t with
    | nil => simp
    | cons d t =>
      have hc := hs c (List.mem_cons_self _ _)
      have hd := ht d (List.mem_cons_self _ _)
      have ih2 := ih t (fun x hx => hs x (List.mem_cons_of_mem _ hx))
        (fun x hx => ht x (List.mem_cons_of_mem _ hx))
      have hrune : sameRuneUpToCase f c d ↔ c.toLower = d.toLower := by
        unfold sameRuneUpToCase
        constructor
        · rintro (h | ⟨-, -, h⟩ | ⟨h, -⟩)
          · rw [h]
          · exact h
          · omega
        · intro h
          exact Or.inr (Or.inl ⟨hc, hd, h⟩)
      simp only [List.forall₂_cons, List.map_cons, List.cons.injEq, hrune, ih2]

/-- On ASCII strings, case-insensitive equality is equality of the lower case
forms. -/
theorem equalUpToCase_ascii (env : Env) (s t : String) (hs : isASCII s) (ht : isASCII t) :
    equalUpToCase env s t ↔ s.data.map Char.toLower = t.data.map Char.toLower :=
  forall₂_sameRune_ascii env.simpleFoldEq s.data t.data hs ht

/-- C4: for an OWNERS document that parses to the approvers `A` and the
reviewers `R`, `userInOwnerFile` returns `(true, nil)` when an entry of `A` or
of `R` equals the sender up to case, and `(false, nil)` when none does, in
particular when both lists are empty.  Equality up to case is stated without
the code: the same runes up to the case of letters; for ASCII entries and
sender it is equality of the lower case forms.  The sender `Alice` is accepted
when the approvers are `alice`, and the sender `Mallo` is not. -/
theorem C4_userInOwnerFile_case_insensitive (env : Env) (ownerContent sender : String)
    (A R : List String) (h : env.yamlUnmarshal ownerContent = Except.ok ⟨A, R⟩) :
    ((∃ owner, (owner ∈ A ∨ owner ∈ R) ∧ equalUpToCase env owner sender) →
      userInOwnerFile env ownerContent sender = (true, none)) ∧
    ((¬ ∃ owner, (owner ∈ A ∨ owner ∈ R) ∧ equalUpToCase env owner sender) →
      userInOwnerFile env ownerContent sender = (false, none)) ∧
    ((∀ owner, owner ∈ A ∨ owner ∈ R → isASCII owner) → isASCII sender →
      ((∃ owner, (owner ∈ A ∨ owner ∈ R) ∧
          owner.data.map Char.toLower = sender.data.map Char.toLower) →
        userInOwnerFile env ownerContent sender = (true, none)) ∧
      ((¬ ∃ owner, (owner ∈ A ∨ owner ∈ R) ∧
          owner.data.map Char.toLower = sender.data.map Char.toLower) →
        userInOwnerFile env ownerContent sender = (false, none))) ∧
    (A = [] → R = [] → userInOwnerFile env ownerContent sender = (false, none)) ∧
    (A = ["alice"] → sender = "Alice" →
      userInOwnerFile env ownerContent sender = (true, none)) ∧
    (A = ["alice"] → R = [] → sender = "Mallo" →
      userInOwnerFile env ownerContent sender = (false, none)) := by
  have hu : userInOwnerFile env ownerContent sender
      = ((A ++ R).any (fun owner => EqualFold env owner sender), none) := by
    unfold userInOwnerFile
    rw [h]
  have hiff : (A ++ R).any (fun owner => EqualFold env owner sender) = true ↔
      ∃ owner, (owner ∈ A ∨ owner ∈ R) ∧ equalUpToCase env owner sender := by
    simp only [List.any_eq_true, List.mem_append, EqualFold_iff]
  have htrue : (∃ owner, (owner ∈ A ∨ owner ∈ R) ∧ equalUpToCase env owner sender) →
      userInOwnerFile env ownerContent sender = (true, none) := by
    intro hex
    rw [hu, hiff.mpr hex]
  have hfalse : (¬ ∃ owner, (owner ∈ A ∨ owner ∈ R) ∧ equalUpToCase env owner sender) →
      userInOwnerFile env ownerContent sender = (false, none) := by
    intro hex
    rw [hu]
    cases hb : (A ++ R).any (fun owner => EqualFold env owner sender) with
    | false => rfl
    | true => exact absurd (hiff.mp hb) hex
  refine ⟨htrue, hfalse, ?_, ?_, ?_, ?_⟩
  · intro hA hs
    constructor
    · rintro ⟨owner, hmem, heq⟩
      exact htrue ⟨owner, hmem, (equalUpToCase_ascii env owner sender (hA owner hmem) hs).mpr heq⟩
    · intro hex
      apply hfalse
      rintro ⟨owner, hmem, heq⟩
      exact hex ⟨owner, hmem,
        (equalUpToCase_ascii env owner sender (hA owner hmem) hs).mp heq⟩
  · intro hA hR
    rw [hu, hA, hR]
    rfl
  · intro hA hs
    apply htrue
    refine ⟨"alice", Or.inl (by rw [hA]; exact List.mem_singleton.mpr rfl), ?_⟩
    rw [hs]
    exact (equalUpToCase_ascii env "alice" "Alice" (by unfold isASCII; decide)
      (by unfold isASCII; decide)).mpr (by decide)
  · intro hA hR hs
    apply hfalse
    rintro ⟨owner, hmem, heq⟩
    rw [hA, hR] at hmem
    have ho : owner = "alice" := by
      rcases hmem with hm | hm
      · exact List.mem_singleton.mp hm
      · simp at hm
    rw [ho, hs] at heq
    exact absurd ((equalUpToCase_ascii env "alice" "Mallo" (by unfold isASCII; decide)
      (by unfold isASCII; decide)).mp heq) (by decide)

/-- Witness of C4: the demo OWNERS document parses to the approver `carol`,
and the sender `Carol` is accepted. -/
theorem C4_userInOwnerFile_case_insensitive_witness :
    userInOwnerFile demoEnv demoOwners "Carol" = (true, none) :=
  (C4_userInOwnerFile_case_insensitive demoEnv demoOwners "Carol" ["carol"] [] rfl).1
    ⟨"carol", Or.inl (List.mem_singleton.mpr rfl),
      (equalUpToCase_ascii demoEnv "carol" "Carol" (by unfold isASCII; decide)
        (by unfold isASCII; decide)).mpr (by decide)⟩

theorem scanComments_cons (env : Env) (client : Host) (payload : payloadDetails)
    (p : GitHubOwnersInterceptor) (comment : Comment) (rest : List Comment) :
    scanComments env client payload p (comment :: rest) =
      match evalAuthor env client payload p comment with
      | ((_, some err), t) => ((false, some err), t)
      | ((true, none), t) => ((true, none), t)
      | ((false, none), t) =>
        ((scanComments env client { payload with Sender := comment.User.GetLogin } p rest).1,
          t ++ (scanComments env client
            { payload with Sender := comment.User.GetLogin } p rest).2) := by
  rfl

theorem scanComments_sender (env : Env) (client : Host) (p : GitHubOwnersInterceptor)
    (comments : List Comment) (payload : payloadDetails) (sender : String) :
    scanComments env client { payload with Sender := sender } p comments
      = scanComments env client payload p comments := by
  cases comments with
  | nil => rfl
  | cons comment rest => rfl

theorem scanComments_skip (env : Env) (client : Host) (p : GitHubOwnersInterceptor)
    (payload : payloadDetails) (rest : List Comment) (pre : List Comment)
    (h : ∀ d ∈ pre, (evalAuthor env client payload p d).1 = (false, none)) :
    scanComments env client payload p (pre ++ rest) =
      ((scanComments env client payload p rest).1,
        pre.flatMap (fun d => (evalAuthor env client payload p d).2) ++
          (scanComments env client payload p rest).2) := by
  induction pre with
  | nil => simp
  | cons d pre ih =>
    have hd := h d (List.mem_cons_self d pre)
    have ih2 := ih (fun x hx => h x (List.mem_cons_of_mem d hx))
    rw [List.cons_append, scanComments_cons]
    rcases hr : evalAuthor env client payload p d with ⟨⟨b, e⟩, t⟩
    rw [hr] at hd
    simp only [Prod.mk.injEq] at hd
    obtain ⟨rfl, rfl⟩ := hd
    simp only [scanComments_sender, ih2, List.flatMap_cons, hr, List.append_assoc]

theorem allowedOkToTestFromAnOwner_ok (env : Env) (client : Host) (payload : payloadDetails)
    (p : GitHubOwnersInterceptor) (comments : List Comment)
    (h : client.ListComments payload.Owner payload.Repository payload.PrNumber
      = Except.ok comments) :
    allowedOkToTestFromAnOwner env client payload p =
      ((scanComments env client payload p (retained comments)).1,
        Call.listComments payload.Owner payload.Repository payload.PrNumber ::
          (scanComments env client payload p (retained comments)).2) := by
  unfold allowedOkToTestFromAnOwner getStringPullRequestComment
  rw [h]
  rfl

/-- C5: when the listing of the comments fails, `allowedOkToTestFromAnOwner`
returns that error.  When it succeeds, the comments whose body matches the
trust pattern are evaluated in the order of retrieval, each by
`checkOwnershipAndMembership` on the payload with only the sender replaced by
the author: after comments evaluated as not authorized, the first one
evaluated as authorized gives true and the first one whose evaluation fails
gives that error, no call being made for a later comment; when all are
evaluated as not authorized, or none is retained, the result is false. -/
theorem C5_allowedOkToTestFromAnOwner_scan (env : Env) (client : Host)
    (payload : payloadDetails) (p : GitHubOwnersInterceptor) :
    (∀ e, client.ListComments payload.Owner payload.Repository payload.PrNumber
        = Except.error e →
      allowedOkToTestFromAnOwner env client payload p
        = ((false, some e),
            [Call.listComments payload.Owner payload.Repository payload.PrNumber])) ∧
    (∀ comments, client.ListComments payload.Owner payload.Repository payload.PrNumber
        = Except.ok comments →
      (∀ pre c post, retained comments = pre ++ c :: post →
        (∀ d ∈ pre, (evalAuthor env client payload p d).1 = (false, none)) →
        ((evalAuthor env client payload p c).1 = (true, none) →
          allowedOkToTestFromAnOwner env client payload p
            = ((true, none),
                Call.listComments payload.Owner payload.Repository payload.PrNumber ::
                  (pre.flatMap (fun d => (evalAuthor env client payload p d).2) ++
                    (evalAuthor env client payload p c).2))) ∧
        (∀ e, (evalAuthor env client payload p c).1.2 = some e →
          allowedOkToTestFromAnOwner env client payload p
            = ((false, some e),
                Call.listComments payload.Owner payload.Repository payload.PrNumber ::
                  (pre.flatMap (fun d => (evalAuthor env client payload p d).2) ++
                    (evalAuthor env client payload p c).2)))) ∧
      ((∀ d ∈ retained comments, (evalAuthor env client payload p d).1 = (false, none)) →
        allowedOkToTestFromAnOwner env client payload p
          = ((false, none),
              Call.listComments payload.Owner payload.Repository payload.PrNumber ::
                (retained comments).flatMap
                  (fun d => (evalAuthor env client payload p d).2)))) := by
  constructor
  · intro e he
    unfold allowedOkToTestFromAnOwner getStringPullRequestComment
    rw [he]
  · intro comments hc
    rw [allowedOkToTestFromAnOwner_ok env client payload p comments hc]
    refine ⟨?_, ?_⟩
    · intro pre c post hret hpre
      rw [hret, scanComments_skip env client p payload (c :: post) pre hpre,
        scanComments_cons]
      constructor
      · intro hgrant
        rcases hr : evalAuthor env client payload p c with ⟨⟨b, e⟩, t⟩
        rw [hr] at hgrant
        simp only [Prod.mk.injEq] at hgrant
        obtain ⟨rfl, rfl⟩ := hgrant
        rfl
      · intro e he
        rcases hr : evalAuthor env client payload p c with ⟨⟨b, e2⟩, t⟩
        rw [hr] at he
        simp only at he
        subst he
        cases b <;> rfl
    · intro hall
      have h := scanComments_skip env client p payload [] (retained comments) hall
      rw [List.append_nil] at h
      rw [h]
      simp [scanComments]

/-- Witness of C5: on the demo host pull request 42 has two comments, of which
only the one by `carol` matches the trust pattern; `carol` is an approver, so
the scan returns true after the listing and one retrieval of the OWNERS file. -/
theorem C5_allowedOkToTestFromAnOwner_scan_witness :
    allowedOkToTestFromAnOwner demoEnv demoHost (demoPayload "bob") ⟨none, false, false⟩
      = ((true, none), [Call.listComments "acme" "widgets" 42,
          Call.getContents "acme" "widgets" "OWNERS"]) :=
  ((C5_allowedOkToTestFromAnOwner_scan demoEnv demoHost (demoPayload "bob")
    ⟨none, false, false⟩).2 _ rfl).1 [] ⟨⟨some "carol"⟩, "/ok-to-test"⟩ [] (by decide)
    (by simp) |>.1 (by decide)

/-! ### The trust pattern -/

theorem startsWith_iff (s text : List Char) :
    startsWith text s = true ↔ ∃ post, text = s ++ post := by
  induction s generalizing text with
  | nil => simp [startsWith]
  | cons c cs ih =>
    cases text with
    | nil => simp [startsWith]
    | cons d t =>
      simp only [startsWith, Bool.and_eq_true, beq_iff_eq, ih, List.cons_append,
        List.cons.injEq]
      constructor
      · rintro ⟨rfl, post, rfl⟩
        exact ⟨post, rfl, rfl⟩
      · rintro ⟨post, rfl, rfl⟩
        exact ⟨rfl, post, rfl⟩

theorem run_str (s : List Char) (b : Bool) (text : List Char) :
    Regex.run (Regex.str s) (b, text) =
      if startsWith text s then [(b && s.isEmpty, text.drop s.length)] else [] := by
  induction s generalizing b text with
  | nil => simp [Regex.str, Regex.run, startsWith]
  | cons c cs ih =>
    cases text with
    | nil => simp [Regex.str, Regex.run, startsWith]
    | cons d t =>
      by_cases hd : d = c
      · subst hd
        simp [Regex.str, Regex.run, startsWith, ih]
      · simp [Regex.str, Regex.run, startsWith, hd]

theorem run_length_le (r : Regex) (st st1 : Pos) (h : st1 ∈ Regex.run r st) :
    st1.2.length ≤ st.2.length := by
  induction r generalizing st st1 with
  | empty =>
    simp only [Regex.run, List.mem_singleton] at h
    rw [h]
  | lit c =>
    obtain ⟨b, text⟩ := st
    cases text with
    | nil => simp [Regex.run] at h
    | cons d t =>
      by_cases hd : d = c
      · simp only [Regex.run, hd, if_true, List.mem_singleton] at h
        rw [h]
        simp
      · simp [Regex.run, hd] at h
  | bot =>
    obtain ⟨b, text⟩ := st
    cases b with
    | true =>
      simp only [Regex.run, if_true, List.mem_singleton] at h
      rw [h]
    | false => simp [Regex.run] at h
  | eot =>
    obtain ⟨b, text⟩ := st
    cases text with
    | nil =>
      simp only [Regex.run, List.isEmpty_nil, if_true, List.mem_singleton] at h
      rw [h]
    | cons d t => simp [Regex.run] at h
  | cat r s ihr ihs =>
    simp only [Regex.run, List.mem_flatMap] at h
    obtain ⟨mid, h1, h2⟩ := h
    exact le_trans (ihs mid st1 h2) (ihr st mid h1)
  | alt r s ihr ihs =>
    simp only [Regex.run, List.mem_append] at h
    rcases h with h | h
    · exact ihr st st1 h
    · exact ihs st st1 h

theorem run_lineEnd_ne_nil (b : Bool) (post : List Char) :
    Regex.run lineEnd (b, post) ≠ [] ↔ atLineEnd post := by
  unfold atLineEnd lineEnd
  cases post with
  | nil => simp [Regex.run, Regex.str]
  | cons d t =>
    by_cases h1 : d = '\n'
    · subst h1
      simp [Regex.run, Regex.str]
    · by_cases h2 : d = '\r'
      · subst h2
        simp [Regex.run, Regex.str]
      · simp [Regex.run, Regex.str, h1, h2]

theorem run_cat (r s : Regex) (st : Pos) :
    Regex.run (Regex.cat r s) st = (Regex.run r st).flatMap (Regex.run s) := by
  rfl

theorem run_tokenLine (b : Bool) (post : List Char) :
    Regex.run tokenLine (b, okToTestToken ++ post) = Regex.run lineEnd (false, post) := by
  have hs : startsWith (okToTestToken ++ post) okToTestToken = true :=
    (startsWith_iff _ _).mpr ⟨post, rfl⟩
  have hl : okToTestToken.isEmpty = false := rfl
  unfold tokenLine
  rw [run_cat, run_str, hs, hl]
  simp only [if_true, List.flatMap_cons, List.flatMap_nil, List.append_nil,
    List.drop_left, Bool.and_false]

theorem run_tokenLine_nil (b : Bool) (text : List Char)
    (hs : ¬ startsWith text okToTestToken = true) :
    Regex.run tokenLine (b, text) = [] := by
  unfold tokenLine
  rw [run_cat, run_str]
  simp only [hs, Bool.false_eq_true, if_false, List.flatMap_nil]

theorem run_tokenLine_ne_nil (b : Bool) (text : List Char) :
    Regex.run tokenLine (b, text) ≠ [] ↔
      ∃ post, text = okToTestToken ++ post ∧ atLineEnd post := by
  by_cases hs : startsWith text okToTestToken = true
  · obtain ⟨post, rfl⟩ := (startsWith_iff _ _).mp hs
    rw [run_tokenLine, run_lineEnd_ne_nil]
    simp only [List.append_cancel_left_eq, exists_eq_left']
  · rw [run_tokenLine_nil b text hs]
    constructor
    · intro h
      exact absurd rfl h
    · rintro ⟨post, hp, -⟩
      exact absurd ((startsWith_iff _ _).mpr ⟨post, hp⟩) hs

theorem run_tokenLine_length (st st1 : Pos) (h : st1 ∈ Regex.run tokenLine st) :
    st1.2.length < st.2.length := by
  obtain ⟨b, text⟩ := st
  by_cases hs : startsWith text okToTestToken = true
  · obtain ⟨post, rfl⟩ := (startsWith_iff _ _).mp hs
    rw [run_tokenLine] at h
    have := run_length_le lineEnd _ _ h
    simp only [List.length_append] at this ⊢
    have hl : okToTestToken.length = 11 := rfl
    omega
  · rw [run_tokenLine_nil b text hs] at h
    simp at h

theorem run_OKToTest (b : Bool) (text : List Char) :
    Regex.run OKToTestCommentRegexp (b, text) =
      (Regex.run (Regex.alt Regex.bot (Regex.lit '\n')) (b, text)).flatMap
        (Regex.run tokenLine) := by
  rfl

theorem run_OKToTest_ne_nil (b : Bool) (text : List Char) :
    Regex.run OKToTestCommentRegexp (b, text) ≠ [] ↔ matchesHere b text := by
  rw [run_OKToTest]
  unfold matchesHere
  have hne : ∀ l : List Pos, l ≠ [] ↔ ∃ x, x ∈ l := by
    intro l
    cases l <;> simp
  rw [hne]
  simp only [List.mem_flatMap]
  have hopen : ∀ mid : Pos, mid ∈ Regex.run (Regex.alt Regex.bot (Regex.lit '\n')) (b, text) ↔
      (mid ∈ (if b then [(b, text)] else []) ∨
        mid ∈ (match text with
          | [] => []
          | d :: t => if d = '\n' then [((false : Bool), t)] else [])) := by
    intro mid
    simp only [Regex.run, List.mem_append]
  simp only [hopen]
  constructor
  · rintro ⟨x, ⟨⟨b1, t1⟩, hmid, hx⟩⟩
    have hx2 : Regex.run tokenLine (b1, t1) ≠ [] := List.ne_nil_of_mem hx
    obtain ⟨post, rfl, hpost⟩ := (run_tokenLine_ne_nil b1 t1).mp hx2
    refine ⟨post, hpost, ?_⟩
    rcases hmid with hmid | hmid
    · cases b with
      | true =>
        simp only [if_true, List.mem_singleton, Prod.mk.injEq] at hmid
        exact Or.inl ⟨rfl, hmid.2.symm⟩
      | false => simp at hmid
    · cases text with
      | nil => simp at hmid
      | cons d t =>
        by_cases hd : d = '\n'
        · subst hd
          simp only [if_true, List.mem_singleton, Prod.mk.injEq] at hmid
          exact Or.inr (by rw [hmid.2])
        · simp [hd] at hmid
  · rintro ⟨post, hpost, h⟩
    have hx2 : ∀ b1, Regex.run tokenLine (b1, okToTestToken ++ post) ≠ [] := fun b1 =>
      (run_tokenLine_ne_nil b1 _).mpr ⟨post, rfl, hpost⟩
    rcases h with ⟨rfl, rfl⟩ | rfl
    · obtain ⟨x, hx⟩ := (hne _).mp (hx2 true)
      exact ⟨x, (true, okToTestToken ++ post), Or.inl (by simp), hx⟩
    · obtain ⟨x, hx⟩ := (hne _).mp (hx2 false)
      exact ⟨x, (false, okToTestToken ++ post), Or.inr (by simp), hx⟩

theorem run_OKToTest_length (st st1 : Pos) (h : st1 ∈ Regex.run OKToTestCommentRegexp st) :
    st1.2.length < st.2.length := by
  obtain ⟨b, text⟩ := st
  rw [run_OKToTest, List.mem_flatMap] at h
  obtain ⟨mid, h1, h2⟩ := h
  exact lt_of_lt_of_le (run_tokenLine_length mid st1 h2) (run_length_le _ _ _ h1)

theorem findFrom_cons_nil (re : Regex) (b : Bool) (c : Char) (t : List Char)
    (h : Regex.run re (b, c :: t) = []) :
    findFrom re b (c :: t) = findFrom re false t := by
  rw [findFrom, h]

theorem findFrom_cons_cons (re : Regex) (b : Bool) (c : Char) (t : List Char)
    (st : Pos) (more : List Pos) (h : Regex.run re (b, c :: t) = st :: more) :
    findFrom re b (c :: t) = some ((c :: t).take ((c :: t).length - st.2.length)) := by
  rw [findFrom, h]

theorem not_matchesHere_nil (b : Bool) : ¬ matchesHere b [] := by
  rintro ⟨post, -, h⟩
  rcases h with ⟨-, h⟩ | h
  · exact absurd h (by simp [okToTestToken])
  · exact absurd h (by simp)

theorem getLast?_cons_of_getLast? (c d : Char) (pre : List Char)
    (h : pre.getLast? = some d) : (c :: pre).getLast? = some d := by
  cases pre with
  | nil => simp at h
  | cons x xs => rw [List.getLast?_cons_cons, h]

theorem findFrom_sound (text : List Char) (b : Bool) (m : List Char)
    (h : findFrom OKToTestCommentRegexp b text = some m) :
    m ≠ [] ∧ ∃ pre post, text = pre ++ okToTestToken ++ post ∧ foundAt b pre ∧
      atLineEnd post := by
  induction text generalizing b with
  | nil =>
    have hr : Regex.run OKToTestCommentRegexp (b, []) = [] := by
      by_contra hne
      exact not_matchesHere_nil b ((run_OKToTest_ne_nil b []).mp hne)
    rw [findFrom, hr] at h
    exact absurd h (by simp)
  | cons c t ih =>
    rcases hr : Regex.run OKToTestCommentRegexp (b, c :: t) with _ | ⟨st, more⟩
    · rw [findFrom_cons_nil _ _ _ _ hr] at h
      obtain ⟨hm, pre, post, ht, hpre, hpost⟩ := ih false h
      refine ⟨hm, c :: pre, post, by rw [ht]; rfl, ?_, hpost⟩
      rcases hpre with ⟨-, hb⟩ | hl
      · exact absurd hb (by decide)
      · exact Or.inr (getLast?_cons_of_getLast? c _ pre hl)
    · rw [findFrom_cons_cons _ _ _ _ st more hr] at h
      have hlen := run_OKToTest_length (b, c :: t) st (by rw [hr]; exact List.mem_cons_self _ _)
      have hne : Regex.run OKToTestCommentRegexp (b, c :: t) ≠ [] := by
        rw [hr]
        exact List.cons_ne_nil _ _
      obtain ⟨post, hpost, hcases⟩ := (run_OKToTest_ne_nil b (c :: t)).mp hne
      constructor
      · intro hm
        rw [hm] at h
        have hl := congrArg (fun o => o.map List.length) h
        simp only [Option.map_some', List.length_take, List.length_nil, Option.some.injEq]
          at hl
        simp only at hlen
        omega
      · rcases hcases with ⟨hb, ht⟩ | ht
        · exact ⟨[], post, by rw [ht]; rfl, Or.inl ⟨rfl, hb⟩, hpost⟩
        · exact ⟨['\n'], post, by rw [ht]; rfl, Or.inr rfl, hpost⟩

theorem findFrom_complete (post : List Char) (hpost : atLineEnd post) (pre : List Char)
    (b : Bool) (hpre : foundAt b pre) :
    ∃ m, findFrom OKToTestCommentRegexp b (pre ++ okToTestToken ++ post) = some m ∧
      m ≠ [] := by
  have hfound : ∀ (b : Bool) (c : Char) (t : List Char),
      Regex.run OKToTestCommentRegexp (b, c :: t) ≠ [] →
      ∃ m, findFrom OKToTestCommentRegexp b (c :: t) = some m ∧ m ≠ [] := by
    intro b c t hne
    rcases hr : Regex.run OKToTestCommentRegexp (b, c :: t) with _ | ⟨st, more⟩
    · exact absurd hr hne
    · have hlen := run_OKToTest_length (b, c :: t) st
        (by rw [hr]; exact List.mem_cons_self _ _)
      refine ⟨_, findFrom_cons_cons _ _ _ _ st more hr, ?_⟩
      intro hm
      have hl := congrArg List.length hm
      simp only [List.length_take, List.length_nil] at hl
      simp only at hlen
      omega
  induction pre generalizing b with
  | nil =>
    rcases hpre with ⟨-, hb⟩ | hl
    · subst hb
      exact hfound true '/' _ ((run_OKToTest_ne_nil true _).mpr
        ⟨post, hpost, Or.inl ⟨rfl, rfl⟩⟩)
    · simp at hl
  | cons c pre ih =>
    rcases hpre with ⟨hnil, -⟩ | hl
    · exact absurd hnil (List.cons_ne_nil _ _)
    · by_cases hne : Regex.run OKToTestCommentRegexp
          (b, c :: (pre ++ okToTestToken ++ post)) ≠ []
      · exact hfound b c _ hne
      · have hr : Regex.run OKToTestCommentRegexp
            (b, c :: (pre ++ okToTestToken ++ post)) = [] := by
          by_contra hcon
          exact hne hcon
        have hpre2 : pre.getLast? = some '\n' := by
          cases pre with
          | nil =>
            exfalso
            simp only [List.getLast?_singleton, Option.some.injEq] at hl
            subst hl
            exact hne ((run_OKToTest_ne_nil b _).mpr ⟨post, hpost, Or.inr rfl⟩)
          | cons x xs => rwa [List.getLast?_cons_cons] at hl
        obtain ⟨m, hm, hmne⟩ := ih false (Or.inr hpre2)
        refine ⟨m, ?_, hmne⟩
        rw [List.append_assoc, List.cons_append, ← List.append_assoc,
          findFrom_cons_nil _ _ _ _ hr]
        exact hm

theorem MatchRegexp_iff_findFrom (re : Regex) (body : String) :
    MatchRegexp re body = true ↔ ∃ m, findFrom re true body.data = some m ∧ m ≠ [] := by
  unfold MatchRegexp Find
  have hmk : ∀ m : List Char, String.mk m = "" ↔ m = [] := by
    intro m
    constructor
    · intro h
      exact congrArg String.data h
    · intro h
      rw [h]
  cases hf : findFrom re true body.data with
  | none => simp
  | some m => simp [hmk]

/-- The trust pattern matches a body exactly when the token occurs in it at
the start of the text or right after a line feed, and is followed at once by
LF, CR or the end of the text. -/
theorem MatchRegexp_OKToTest_iff (body : String) :
    MatchRegexp OKToTestCommentRegexp body = true ↔
      ∃ pre post, body.data = pre ++ okToTestToken ++ post ∧ afterLineFeed pre ∧
        atLineEnd post := by
  rw [MatchRegexp_iff_findFrom]
  constructor
  · rintro ⟨m, hm, -⟩
    obtain ⟨-, pre, post, ht, hpre, hpost⟩ := findFrom_sound _ _ _ hm
    refine ⟨pre, post, ht, ?_, hpost⟩
    rcases hpre with ⟨h, -⟩ | h
    · exact Or.inl h
    · exact Or.inr h
  · rintro ⟨pre, post, ht, hpre, hpost⟩
    rw [ht]
    refine findFrom_complete post hpost pre true ?_
    rcases hpre with h | h
    · exact Or.inl ⟨h, rfl⟩
    · exact Or.inr h

/-- C6 as amended: a body in which the token `/ok-to-test` occurs at the very
start of the text or immediately after a line feed (so after the line breaks
LF and CR LF), and is immediately followed by a line break (LF, CR LF or CR)
or by the end of the text, matches; so do the bodies
`looks good\n/ok-to-test\n` and `/ok-to-test`. -/
theorem C6_trust_pattern_matches :
    (∀ (body : String) (pre post : List Char),
      body.data = pre ++ okToTestToken ++ post → afterLineFeed pre → atLineEnd post →
      MatchRegexp OKToTestCommentRegexp body = true) ∧
    MatchRegexp OKToTestCommentRegexp "looks good\n/ok-to-test\n" = true ∧
    MatchRegexp OKToTestCommentRegexp "/ok-to-test" = true :=
  ⟨fun body pre post hbody hpre hpost =>
      (MatchRegexp_OKToTest_iff body).mpr ⟨pre, post, hbody, hpre, hpost⟩,
    by decide, by decide⟩

/-- Witness of C6: the token after a CR LF line break and before a CR. -/
theorem C6_trust_pattern_matches_witness :
    MatchRegexp OKToTestCommentRegexp "thanks\r\n/ok-to-test\rbye" = true :=
  C6_trust_pattern_matches.1 "thanks\r\n/ok-to-test\rbye" "thanks\r\n".data "\rbye".data
    (by decide) (Or.inr (by decide)) (Or.inr (Or.inr (by decide)))

/-- Counterexample to C6 as stated: in `a\r/ok-to-test` the token comes
immediately after a lone CR and is followed by the end of the text, and the
body does not match. -/
theorem C6_counterexample :
    "a\r/ok-to-test".data = ['a', '\r'] ++ okToTestToken ++ [] ∧
    afterLineBreak ['a', '\r'] ∧ atLineEnd [] ∧
    MatchRegexp OKToTestCommentRegexp "a\r/ok-to-test" = false :=
  ⟨by decide, Or.inr (Or.inr (by decide)), Or.inl rfl, by decide⟩

/-- C7: a body that matches the trust pattern contains the token `/ok-to-test`
beginning at the start of the text or right after a line break and followed
at once by a line break or the end of the text; the bodies
`please /ok-to-test now`, `ok-to-test` and `/OK-TO-TEST` do not match. -/
theorem C7_trust_pattern_only_token_line :
    (∀ body : String, MatchRegexp OKToTestCommentRegexp body = true →
      ∃ pre post, body.data = pre ++ okToTestToken ++ post ∧ afterLineBreak pre ∧
        atLineEnd post) ∧
    MatchRegexp OKToTestCommentRegexp "please /ok-to-test now" = false ∧
    MatchRegexp OKToTestCommentRegexp "ok-to-test" = false ∧
    MatchRegexp OKToTestCommentRegexp "/OK-TO-TEST" = false := by
  refine ⟨?_, by decide, by decide, by decide⟩
  intro body h
  obtain ⟨pre, post, hb, hpre, hpost⟩ := (MatchRegexp_OKToTest_iff body).mp h
  refine ⟨pre, post, hb, ?_, hpost⟩
  rcases hpre with h | h
  · exact Or.inl h
  · exact Or.inr (Or.inl h)

/-- Witness of C7: the body `looks good\n/ok-to-test\n` matches, and the token
stands in it after a line break and before one. -/
theorem C7_trust_pattern_only_token_line_witness :
    ∃ pre post, "looks good\n/ok-to-test\n".data = pre ++ okToTestToken ++ post ∧
      afterLineBreak pre ∧ atLineEnd post :=
  C7_trust_pattern_only_token_line.1 "looks good\n/ok-to-test\n" (by decide)

/-! ### `Process` -/

/-- C8: a request whose `X-GitHub-Event` header value (empty when the header
is missing) is neither `pull_request` nor `issue_comment` gets a failure
response, `Continue` false and a status code other than OK, and no call has
been made: the secret is not fetched, the body is not parsed, the repository
host is not called. -/
theorem C8_unsupported_event_rejected_first (env : Env) (r : InterceptorRequest)
    (h1 : env.headerGet r.Header "X-GitHub-Event" ≠ "pull_request")
    (h2 : env.headerGet r.Header "X-GitHub-Event" ≠ "issue_comment") :
    ∃ resp, Process env r = (Outcome.ret resp, []) ∧ resp.Continue = false ∧
      resp.Status.Code ≠ codes.OK := by
  have hany : acceptedEventTypes.any (fun allowedEvent =>
      env.headerGet r.Header "X-GitHub-Event" == allowedEvent) = false := by
    simp [acceptedEventTypes, h1, h2]
  unfold Process
  by_cases hct : env.headerGet r.Header "Content-Type" = "application/x-www-form-urlencoded"
  · rw [if_pos hct]
    exact ⟨_, rfl, rfl, by decide⟩
  · rw [if_neg hct]
    cases hp : env.UnmarshalParams r.InterceptorParams with
    | error err => exact ⟨_, rfl, rfl, by simp [Fail, codes.InvalidArgument, codes.OK]⟩
    | ok p =>
      simp only [hany]
      exact ⟨_, rfl, rfl, by simp [Fail, codes.FailedPrecondition, codes.OK]⟩

/-- Witness of C8: a `push` event. -/
theorem C8_unsupported_event_rejected_first_witness :
    ∃ resp, Process demoEnv (demoRequest "push" demoBody) = (Outcome.ret resp, []) ∧
      resp.Continue = false ∧ resp.Status.Code ≠ codes.OK :=
  C8_unsupported_event_rejected_first demoEnv (demoRequest "push" demoBody)
    (by decide) (by decide)

theorem parseBody_of_validBody (env : Env) (body eventType : String) (number : Int)
    (owner repository sender : String)
    (h : validBody env body eventType number owner repository sender) :
    parseBody env body eventType
      = Outcome.ret (payloadOf number sender owner repository, none) := by
  obtain ⟨hne, jsonMap, hjson, hnum, ⟨repoSection, fullName, hrepo, hfull, hsplit⟩,
    senderSection, hsender, hlogin⟩ := h
  have hrest : ∀ prNum, parseBodyRest jsonMap prNum
      = Outcome.ret (payloadOf prNum sender owner repository, none) := by
    intro prNum
    unfold parseBodyRest
    simp only [hrepo, hfull, hsender, hlogin, hsplit, Option.getD_some]
    rfl
  unfold parseBody
  rw [if_neg hne, hjson]
  rcases hnum with ⟨hev, f, hf, hval⟩ | ⟨hev, issueSection, f, hissue, hf, hval⟩
  · subst hev
    have hn : numberOfPullRequest jsonMap = Outcome.ret (Except.ok number) := by
      unfold numberOfPullRequest
      rw [hf, ← hval]
    have hne2 : ¬ ("pull_request" = "issue_comment") := by decide
    simp only [if_true, hn, if_neg hne2, hrest]
  · subst hev
    have hn : numberOfIssueComment jsonMap = Outcome.ret (Except.ok number) := by
      unfold numberOfIssueComment
      simp only [hissue, hf, ← hval]
    have hne2 : ¬ ("issue_comment" = "pull_request") := by decide
    simp only [if_neg hne2, if_true, hn, hrest]

theorem getSecret_no_secretRef (env : Env) (r : InterceptorRequest)
    (p : GitHubOwnersInterceptor) (h : p.SecretRef = none) :
    getSecret env r p = (Outcome.ret ("", none), []) := by
  unfold getSecret
  rw [h]

theorem getSecret_trace (env : Env) (r : InterceptorRequest) (p : GitHubOwnersInterceptor)
    (c : Call) (h : c ∈ (getSecret env r p).2) : ∃ ns ref, c = Call.secretGet ns ref := by
  unfold getSecret at h
  cases hs : p.SecretRef with
  | none => rw [hs] at h; simp at h
  | some ref =>
    rw [hs] at h
    by_cases hk : ref.SecretKey = ""
    · simp [hk] at h
    · cases hc : r.Context with
      | none => simp [hk, hc] at h
      | some ctx =>
        simp only [hk, hc, if_false] at h
        cases hg : env.SecretGet (ParseTriggerID ctx.TriggerID).1 ref with
        | error err =>
          rw [hg] at h
          exact ⟨_, _, List.mem_singleton.mp h⟩
        | ok token =>
          rw [hg] at h
          exact ⟨_, _, List.mem_singleton.mp h⟩

theorem processDecision_of_granted (env : Env) (client : Host) (payload : payloadDetails)
    (p : GitHubOwnersInterceptor)
    (h : (checkOwnershipAndMembership env client payload p).1 = (true, none)) :
    processDecision env client payload p
      = (verdict true, (checkOwnershipAndMembership env client payload p).2) := by
  unfold processDecision
  rcases hr : checkOwnershipAndMembership env client payload p with ⟨⟨b, e⟩, t⟩
  rw [hr] at h
  simp only [Prod.mk.injEq] at h
  obtain ⟨rfl, rfl⟩ := h
  rfl

theorem checkOwnershipAndMembership_no_flags (env : Env) (client : Host)
    (payload : payloadDetails) (p : GitHubOwnersInterceptor)
    (horg : p.OrgPublicMemberAllowed = false) (hrepo : p.RepoMemberAllowed = false) :
    checkOwnershipAndMembership env client payload p = ownersStep env client payload := by
  unfold checkOwnershipAndMembership repoStep
  simp [horg, hrepo]

/-- C9 as amended: a `pull_request` request whose content type is not form
encoded, with a valid body, no secretRef and both membership flags unset,
whose sender the OWNERS file names up to case, is answered with `Continue`
true and status OK, and the pull-request comments are not listed. -/
theorem C9_owner_pull_request_allowed (env : Env) (r : InterceptorRequest)
    (hct : env.headerGet r.Header "Content-Type" ≠ "application/x-www-form-urlencoded")
    (h : ownerPullRequest env r) :
    (Process env r).1 = Outcome.ret (verdict true) ∧
    ∀ owner repository number,
      Call.listComments owner repository number ∉ (Process env r).2 := by
  obtain ⟨hev, p, client, number, owner, repository, sender, hparams, hsr, horg, hrepo,
    hbody, hclient, hown⟩ := h
  have hreach : reachesDecision env r p client (payloadOf number sender owner repository) := by
    refine ⟨hct, hparams, ?_, "", ?_, hclient, ?_⟩
    · rw [hev]
      decide
    · rw [getSecret_no_secretRef env r p hsr]
    · rw [hev]
      exact parseBody_of_validBody env r.Body _ number owner repository sender hbody
  obtain ⟨h1, h2⟩ := Process_of_reachesDecision env r p client _ hreach
  have hgrant : (checkOwnershipAndMembership env client
      (payloadOf number sender owner repository) p).1 = (true, none) := by
    rw [checkOwnershipAndMembership_no_flags env client _ p horg hrepo]
    exact (ownersStep_true_iff env client _).mpr hown
  have hdec := processDecision_of_granted env client _ p hgrant
  rw [checkOwnershipAndMembership_no_flags env client _ p horg hrepo, ownersStep_trace]
    at hdec
  rw [hdec] at h1 h2
  refine ⟨h1, ?_⟩
  intro o rp n hmem
  rw [h2, getSecret_no_secretRef env r p hsr] at hmem
  simp at hmem

/-- Witness of C9: `Carol` opens pull request 42 on `acme/widgets`, whose
OWNERS file names `carol`. -/
theorem C9_owner_pull_request_allowed_witness :
    (Process demoEnv (demoRequest "pull_request" "pull_request 42 acme/widgets Carol")).1
      = Outcome.ret (verdict true) :=
  (C9_owner_pull_request_allowed demoEnv
    (demoRequest "pull_request" "pull_request 42 acme/widgets Carol") (by decide)
    ⟨rfl, ⟨none, false, false⟩, demoHost, 42, "acme", "widgets", "Carol", rfl, rfl, rfl, rfl,
      ⟨by decide, _, rfl, Or.inl ⟨rfl, ⟨42, 0⟩, rfl, by decide⟩,
        ⟨_, "acme/widgets", rfl, rfl, by decide⟩, _, rfl, rfl⟩,
      rfl, demoOwners, ⟨["carol"], []⟩, rfl, rfl, "carol", by decide, by decide⟩).1

/-- Counterexample to C9 as stated: the same request declared as form encoded
meets every condition of the claim and is answered with a failure. -/
theorem C9_counterexample :
    ownerPullRequest demoEnv
      (formRequest "pull_request" "pull_request 42 acme/widgets Carol") ∧
    (Process demoEnv (formRequest "pull_request" "pull_request 42 acme/widgets Carol")).1
      = Outcome.ret (Fail codes.InvalidArgument ErrInvalidContentType) ∧
    (Fail codes.InvalidArgument ErrInvalidContentType).Continue = false :=
  ⟨⟨rfl, ⟨none, false, false⟩, demoHost, 42, "acme", "widgets", "Carol", rfl, rfl, rfl, rfl,
      ⟨by decide, _, rfl, Or.inl ⟨rfl, ⟨42, 0⟩, rfl, by decide⟩,
        ⟨_, "acme/widgets", rfl, rfl, by decide⟩, _, rfl, rfl⟩,
      rfl, demoOwners, ⟨["carol"], []⟩, rfl, rfl, "carol", by decide, by decide⟩,
    rfl, rfl⟩

theorem checkSenderOrgMembership_not_listed (client : Host) (payload : payloadDetails)
    (users : List User) (h : client.ListMembers payload.Owner = MembersResult.ok users)
    (hs : payload.Sender ∉ users.map User.GetLogin) :
    (checkSenderOrgMembership client payload).1 = (false, none) := by
  rw [checkSenderOrgMembership_ok client payload users h]
  cases hb : users.any (fun user => user.GetLogin == payload.Sender) with
  | false => rfl
  | true => exact absurd ((any_getLogin_iff users payload.Sender).mp hb) hs

theorem checkSenderRepoMembership_not_listed (client : Host) (payload : payloadDetails)
    (users : List User)
    (h : client.ListCollaborators payload.Owner payload.Repository = Except.ok users)
    (hs : payload.Sender ∉ users.map User.GetLogin) :
    (checkSenderRepoMembership client payload).1 = (false, none) := by
  unfold checkSenderRepoMembership
  rw [h]
  cases hb : users.any (fun user => user.GetLogin == payload.Sender) with
  | false => simp [hb]
  | true => exact absurd ((any_getLogin_iff users payload.Sender).mp hb) hs

theorem ownersStep_not_listed (env : Env) (client : Host) (payload : payloadDetails)
    (content : String) (oc : ownersConfig)
    (h : client.GetContents payload.Owner payload.Repository "OWNERS"
      = ContentsResult.file (Except.ok content))
    (hy : env.yamlUnmarshal content = Except.ok oc)
    (hs : ∀ o ∈ oc.Approvers ++ oc.Reviewers, EqualFold env o payload.Sender = false) :
    (ownersStep env client payload).1 = (false, none) := by
  unfold ownersStep getContentFromOwners userInOwnerFile
  rw [h]
  simp only [hy]
  cases hb : (oc.Approvers ++ oc.Reviewers).any (fun owner =>
      EqualFold env owner payload.Sender) with
  | false => rfl
  | true =>
    obtain ⟨o, ho, heq⟩ := List.any_eq_true.mp hb
    rw [hs o ho] at heq
    exact absurd heq (by decide)

/-- C10 as amended: a request whose content type is not form encoded, with an
accepted event type, params that parse and a valid body, for which the secret
(if one is referenced) is obtained, the client is built, every remote call
succeeds and the OWNERS file parses, whose sender is in no enabled listing and
is not named by the OWNERS file, and none of whose pull-request comments
matches the trust pattern, is answered with `Continue` false and status OK. -/
theorem C10_unauthorized_request_denied (env : Env) (r : InterceptorRequest)
    (hct : env.headerGet r.Header "Content-Type" ≠ "application/x-www-form-urlencoded")
    (h : unauthorizedRequest env r) :
    ∃ resp, (Process env r).1 = Outcome.ret resp ∧ resp.Continue = false ∧
      resp.Status.Code = codes.OK := by
  obtain ⟨hev, p, client, number, owner, repository, sender, token, hparams, hbody, hsec,
    hclient, horg, hrepo, ⟨content, oc, hget, hyaml, hown⟩, comments, hlist, hnone⟩ := h
  have hreach : reachesDecision env r p client (payloadOf number sender owner repository) :=
    ⟨hct, hparams, hev, token, hsec, hclient,
      parseBody_of_validBody env r.Body _ number owner repository sender hbody⟩
  obtain ⟨h1, -⟩ := Process_of_reachesDecision env r p client _ hreach
  have hdenied : (checkOwnershipAndMembership env client
      (payloadOf number sender owner repository) p).1 = (false, none) := by
    apply checkOwnershipAndMembership_false_of_steps
    · intro hp
      obtain ⟨users, hu, hs⟩ := horg hp
      exact checkSenderOrgMembership_not_listed client _ users hu hs
    · intro hp
      obtain ⟨users, hu, hs⟩ := hrepo hp
      exact checkSenderRepoMembership_not_listed client _ users hu hs
    · exact ownersStep_not_listed env client _ content oc hget hyaml hown
  have hret : retained comments = [] := by
    unfold retained
    rw [List.filter_eq_nil_iff]
    intro c hc
    rw [hnone c hc]
    decide
  have hscan : (allowedOkToTestFromAnOwner env client
      (payloadOf number sender owner repository) p).1 = (false, none) := by
    rw [allowedOkToTestFromAnOwner_ok env client _ p comments hlist, hret]
    rfl
  obtain ⟨h3, -⟩ := processDecision_of_not_granted env client _ p hdenied
  rw [h3, hscan] at h1
  exact ⟨verdict false, h1, rfl, rfl⟩

/-- Witness of C10: `bob` comments on issue 7 of `acme/widgets`, both flags
being set; he is neither `dave`, `erin` nor `carol`, and issue 7 has no
comment. -/
theorem C10_unauthorized_request_denied_witness :
    ∃ resp, (Process demoEnv
        (flaggedRequest "issue_comment" "issue_comment 7 acme/widgets bob")).1
      = Outcome.ret resp ∧ resp.Continue = false ∧ resp.Status.Code = codes.OK :=
  C10_unauthorized_request_denied demoEnv
    (flaggedRequest "issue_comment" "issue_comment 7 acme/widgets bob") (by decide)
    ⟨by decide, ⟨none, true, true⟩, demoHost, 7, "acme", "widgets", "bob", "", rfl,
      ⟨by decide, _, rfl, Or.inr ⟨rfl, _, ⟨7, 0⟩, rfl, rfl, by decide⟩,
        ⟨_, "acme/widgets", rfl, rfl, by decide⟩, _, rfl, rfl⟩,
      rfl, rfl, fun _ => ⟨_, rfl, by decide⟩, fun _ => ⟨_, rfl, by decide⟩,
      ⟨demoOwners, ⟨["carol"], []⟩, rfl, rfl, by decide⟩, [], rfl, by simp⟩

/-- Counterexample to C10 as stated: the request of `bob` declared as form
encoded meets every condition of the claim and is answered with a failure
status, not with a verdict. -/
theorem C10_counterexample :
    unauthorizedRequest demoEnv
      (formRequest "issue_comment" "issue_comment 7 acme/widgets bob") ∧
    (Process demoEnv (formRequest "issue_comment" "issue_comment 7 acme/widgets bob")).1
      = Outcome.ret (Fail codes.InvalidArgument ErrInvalidContentType) ∧
    (Fail codes.InvalidArgument ErrInvalidContentType).Status.Code ≠ codes.OK :=
  ⟨⟨by decide, ⟨none, false, false⟩, demoHost, 7, "acme", "widgets", "bob", "", rfl,
      ⟨by decide, _, rfl, Or.inr ⟨rfl, _, ⟨7, 0⟩, rfl, rfl, by decide⟩,
        ⟨_, "acme/widgets", rfl, rfl, by decide⟩, _, rfl, rfl⟩,
      rfl, rfl, fun h => absurd h (by decide), fun h => absurd h (by decide),
      ⟨demoOwners, ⟨["carol"], []⟩, rfl, rfl, by decide⟩, [], rfl, by simp⟩,
    rfl, by decide⟩

/-! ### Failures of `Process` -/

theorem checkOwnershipAndMembership_org_failure (env : Env) (client : Host)
    (payload : payloadDetails) (p : GitHubOwnersInterceptor)
    (hp : p.OrgPublicMemberAllowed = true)
    (hf : propagatedFailure client (Call.listMembers payload.Owner) = true) :
    ∃ e, checkOwnershipAndMembership env client payload p
      = ((false, some e), [Call.listMembers payload.Owner]) := by
  obtain ⟨e, he⟩ := checkSenderOrgMembership_propagates client payload hf
  have ht := checkSenderOrgMembership_trace client payload
  refine ⟨e, ?_⟩
  unfold checkOwnershipAndMembership
  rcases hr : checkSenderOrgMembership client payload with ⟨⟨b, e2⟩, t⟩
  rw [hr] at he ht
  simp only [Prod.mk.injEq] at he ht
  obtain ⟨rfl, rfl⟩ := he
  subst ht
  simp [hp]

theorem processDecision_of_error (env : Env) (client : Host) (payload : payloadDetails)
    (p : GitHubOwnersInterceptor) (b : Bool) (e : error)
    (h : (checkOwnershipAndMembership env client payload p).1 = (b, some e)) :
    processDecision env client payload p
      = (Fail codes.FailedPrecondition ("error checking owner verification: " ++ e),
          (checkOwnershipAndMembership env client payload p).2) := by
  unfold processDecision
  rcases hr : checkOwnershipAndMembership env client payload p with ⟨⟨b2, e2⟩, t⟩
  rw [hr] at h
  simp only [Prod.mk.injEq] at h
  obtain ⟨rfl, rfl⟩ := h
  cases b2 <;> rfl

/-- C11: for a request with an accepted event type whose params set
`orgPublicMemberAllowed`, if the listing of the public members of the
organization of the payload fails with an error that is not a not-found
response, `Process` answers with a failure status (`Continue` false, a code
other than OK), and neither the collaborators, nor the OWNERS file, nor the
comments are asked for. -/
theorem C11_member_listing_failure_fails (env : Env) (r : InterceptorRequest)
    (p : GitHubOwnersInterceptor) (client : Host) (payload : payloadDetails)
    (secretToken : String)
    (hparams : env.UnmarshalParams r.InterceptorParams = Except.ok p)
    (horg : p.OrgPublicMemberAllowed = true)
    (hev : env.headerGet r.Header "X-GitHub-Event" ∈ acceptedEventTypes)
    (hsec : (getSecret env r p).1 = Outcome.ret (secretToken, none))
    (hclient : newClient env (env.headerGet r.Header "X-Github-Enterprise-Host") secretToken
      = Except.ok client)
    (hbody : parseBody env r.Body (env.headerGet r.Header "X-GitHub-Event")
      = Outcome.ret (payload, none))
    (hfail : propagatedFailure client (Call.listMembers payload.Owner) = true) :
    ∃ resp, (Process env r).1 = Outcome.ret resp ∧ resp.Continue = false ∧
      resp.Status.Code ≠ codes.OK ∧
      ∀ c ∈ (Process env r).2,
        (∀ owner repo, c ≠ Call.listCollaborators owner repo) ∧
        (∀ owner repo path, c ≠ Call.getContents owner repo path) ∧
        (∀ owner repo number, c ≠ Call.listComments owner repo number) := by
  by_cases hct : env.headerGet r.Header "Content-Type" = "application/x-www-form-urlencoded"
  · refine ⟨Fail codes.InvalidArgument ErrInvalidContentType, ?_, rfl, by decide, ?_⟩
    · unfold Process
      rw [if_pos hct]
    · intro c hc
      unfold Process at hc
      rw [if_pos hct] at hc
      simp at hc
  · have hreach : reachesDecision env r p client payload :=
      ⟨hct, hparams, hev, secretToken, hsec, hclient, hbody⟩
    obtain ⟨h1, h2⟩ := Process_of_reachesDecision env r p client payload hreach
    obtain ⟨e, he⟩ := checkOwnershipAndMembership_org_failure env client payload p horg hfail
    have hdec := processDecision_of_error env client payload p false e (by rw [he])
    rw [he] at hdec
    rw [hdec] at h1 h2
    refine ⟨_, h1, rfl, by simp [Fail, codes.FailedPrecondition, codes.OK], ?_⟩
    intro c hc
    rw [h2] at hc
    simp only [List.mem_append, List.mem_singleton] at hc
    rcases hc with (hc | hc) | hc
    · obtain ⟨ns, ref, rfl⟩ := getSecret_trace env r p c hc
      simp
    · subst hc
      simp
    · subst hc
      simp

/-- Witness of C11: on the demo host the members of an organisation other than
`acme` cannot be listed; here the listing fails without any response. -/
theorem C11_member_listing_failure_fails_witness :
    ∃ resp, (Process
        { demoEnv with NewClient := fun _ =>
            { demoHost with ListMembers := fun _ =>
                MembersResult.transportError "dial tcp: i/o timeout" } }
        (flaggedRequest "pull_request" demoBody)).1 = Outcome.ret resp ∧
      resp.Continue = false ∧ resp.Status.Code ≠ codes.OK :=
  have h := C11_member_listing_failure_fails
    { demoEnv with NewClient := fun _ =>
        { demoHost with ListMembers := fun _ =>
            MembersResult.transportError "dial tcp: i/o timeout" } }
    (flaggedRequest "pull_request" demoBody) ⟨none, true, true⟩
    { demoHost with ListMembers := fun _ =>
        MembersResult.transportError "dial tcp: i/o timeout" }
    (demoPayload "bob") "" rfl rfl (by decide) rfl rfl rfl rfl
  h.imp fun _ hr => ⟨hr.1, hr.2.1, hr.2.2.1⟩

theorem processDecision_cases (env : Env) (client : Host) (payload : payloadDetails)
    (p : GitHubOwnersInterceptor) :
    (∃ msg, (processDecision env client payload p).1 = Fail codes.FailedPrecondition msg) ∨
    ((processDecision env client payload p).1 = verdict true ∧
      ((checkOwnershipAndMembership env client payload p).1 = (true, none) ∨
        ((checkOwnershipAndMembership env client payload p).1 = (false, none) ∧
          (allowedOkToTestFromAnOwner env client payload p).1 = (true, none)))) ∨
    (processDecision env client payload p).1 = verdict false := by
  unfold processDecision
  rcases hr : checkOwnershipAndMembership env client payload p with ⟨⟨b, e⟩, t⟩
  cases e with
  | some err => cases b <;> exact Or.inl ⟨_, rfl⟩
  | none =>
    cases b with
    | true => exact Or.inr (Or.inl ⟨rfl, Or.inl rfl⟩)
    | false =>
      rcases hr2 : allowedOkToTestFromAnOwner env client payload p with ⟨⟨b2, e2⟩, t2⟩
      cases e2 with
      | some err => cases b2 <;> exact Or.inl ⟨_, rfl⟩
      | none =>
        cases b2 with
        | true => exact Or.inr (Or.inl ⟨rfl, Or.inr ⟨rfl, rfl⟩⟩)
        | false => exact Or.inr (Or.inr rfl)

theorem Process_cases (env : Env) (r : InterceptorRequest) (resp : InterceptorResponse)
    (h : (Process env r).1 = Outcome.ret resp) :
    (∃ msg, resp = Fail codes.InvalidArgument msg) ∨
    (∃ msg, resp = Fail codes.FailedPrecondition msg) ∨
    ∃ p client payload, reachesDecision env r p client payload ∧
      resp = (processDecision env client payload p).1 := by
  unfold Process at h
  by_cases hct : env.headerGet r.Header "Content-Type" = "application/x-www-form-urlencoded"
  · rw [if_pos hct] at h
    simp only [Outcome.ret.injEq] at h
    exact Or.inl ⟨_, h.symm⟩
  · rw [if_neg hct] at h
    cases hp : env.UnmarshalParams r.InterceptorParams with
    | error err =>
      rw [hp] at h
      simp only [Outcome.ret.injEq] at h
      exact Or.inl ⟨_, h.symm⟩
    | ok p =>
      rw [hp] at h
      by_cases hany : acceptedEventTypes.any (fun allowedEvent =>
          env.headerGet r.Header "X-GitHub-Event" == allowedEvent) = true
      · have hev : env.headerGet r.Header "X-GitHub-Event" ∈ acceptedEventTypes := by
          obtain ⟨x, hx, hxe⟩ := List.any_eq_true.mp hany
          rw [beq_iff_eq] at hxe
          rw [hxe]
          exact hx
        simp only [hany, if_true] at h
        unfold processAccepted at h
        rcases hs : getSecret env r p with ⟨o, t⟩
        rw [hs] at h
        cases o with
        | panic msg => simp at h
        | ret res =>
          obtain ⟨token, e⟩ := res
          cases e with
          | some err =>
            simp only [Outcome.ret.injEq] at h
            exact Or.inr (Or.inl ⟨_, h.symm⟩)
          | none =>
            simp only at h
            cases hc : newClient env (env.headerGet r.Header "X-Github-Enterprise-Host")
                token with
            | error err =>
              rw [hc] at h
              simp only [Outcome.ret.injEq] at h
              exact Or.inr (Or.inl ⟨_, h.symm⟩)
            | ok client =>
              rw [hc] at h
              cases hb : parseBody env r.Body (env.headerGet r.Header "X-GitHub-Event") with
              | panic msg =>
                rw [hb] at h
                simp at h
              | ret res =>
                obtain ⟨payload, e⟩ := res
                rw [hb] at h
                cases e with
                | some err =>
                  simp only [Outcome.ret.injEq] at h
                  exact Or.inr (Or.inl ⟨_, h.symm⟩)
                | none =>
                  simp only [Outcome.ret.injEq] at h
                  refine Or.inr (Or.inr ⟨p, client, payload, ⟨hct, hp, hev, token, ?_, hc, hb⟩,
                    h.symm⟩)
                  rw [hs]
      · simp only [hany] at h
        simp only [Bool.false_eq_true, if_false, Outcome.ret.injEq] at h
        exact Or.inr (Or.inl ⟨_, h.symm⟩)

/-- C12: a response of `Process` is a verdict or a failure, never both: when
its status code is not OK, `Continue` is false; when `Continue` is true the
code is OK and the message empty; and `Continue` is true only when
`checkOwnershipAndMembership` returned true without error, or returned false
without error and `allowedOkToTestFromAnOwner` then returned true without
error. -/
theorem C12_verdict_or_failure (env : Env) (r : InterceptorRequest)
    (resp : InterceptorResponse) (h : (Process env r).1 = Outcome.ret resp) :
    (resp.Status.Code ≠ codes.OK → resp.Continue = false) ∧
    (resp.Continue = true → resp.Status.Code = codes.OK ∧ resp.Status.Message = "") ∧
    (resp.Continue = true →
      ∃ p client payload, reachesDecision env r p client payload ∧
        ((checkOwnershipAndMembership env client payload p).1 = (true, none) ∨
          ((checkOwnershipAndMembership env client payload p).1 = (false, none) ∧
            (allowedOkToTestFromAnOwner env client payload p).1 = (true, none)))) := by
  rcases Process_cases env r resp h with ⟨msg, rfl⟩ | ⟨msg, rfl⟩ | ⟨p, client, payload, hr, rfl⟩
  · exact ⟨fun _ => rfl, fun hc => absurd hc (by simp [Fail]),
      fun hc => absurd hc (by simp [Fail])⟩
  · exact ⟨fun _ => rfl, fun hc => absurd hc (by simp [Fail]),
      fun hc => absurd hc (by simp [Fail])⟩
  · rcases processDecision_cases env client payload p with ⟨msg, hd⟩ | ⟨hd, hg⟩ | hd
    · rw [hd]
      exact ⟨fun _ => rfl, fun hc => absurd hc (by simp [Fail]),
        fun hc => absurd hc (by simp [Fail])⟩
    · rw [hd]
      exact ⟨fun hc => absurd rfl hc, fun _ => ⟨rfl, rfl⟩, fun _ => ⟨p, client, payload, hr, hg⟩⟩
    · rw [hd]
      exact ⟨fun _ => rfl, fun hc => absurd hc (by simp [verdict]),
        fun hc => absurd hc (by simp [verdict])⟩

/-- Witness of C12: the response to `Carol`, whom the OWNERS file names, has
`Continue` true, the code OK and an empty message. -/
theorem C12_verdict_or_failure_witness :
    (Process demoEnv (demoRequest "pull_request" "pull_request 42 acme/widgets Carol")).1
      = Outcome.ret (verdict true) ∧
    (verdict true).Status.Code = codes.OK ∧ (verdict true).Status.Message = "" :=
  ⟨rfl, (C12_verdict_or_failure demoEnv
    (demoRequest "pull_request" "pull_request 42 acme/widgets Carol") (verdict true)
    rfl).2.1 rfl⟩

/-- C13: a request that declares the content type
`application/x-www-form-urlencoded` is answered with the failure
`InvalidArgument` and `Continue` false, whatever its params, event type and
body, and no call has been made: the params are not parsed (the answer does
not depend on them), the secret is not fetched, the host is not called. -/
theorem C13_form_content_type_rejected (env : Env) (r : InterceptorRequest)
    (hct : env.headerGet r.Header "Content-Type" = "application/x-www-form-urlencoded") :
    Process env r = (Outcome.ret (Fail codes.InvalidArgument ErrInvalidContentType), []) ∧
    (Fail codes.InvalidArgument ErrInvalidContentType).Continue = false ∧
    (Fail codes.InvalidArgument ErrInvalidContentType).Status.Code = codes.InvalidArgument ∧
    codes.InvalidArgument ≠ codes.OK := by
  refine ⟨?_, rfl, rfl, by decide⟩
  unfold Process
  rw [if_pos hct]

/-- Witness of C13: a form encoded `pull_request` request with a valid body. -/
theorem C13_form_content_type_rejected_witness :
    Process demoEnv (formRequest "pull_request" demoBody)
      = (Outcome.ret (Fail codes.InvalidArgument ErrInvalidContentType), []) :=
  (C13_form_content_type_rejected demoEnv (formRequest "pull_request" demoBody)
    (by decide)).1

/-! ### `parseBody` -/

theorem splitRunes_no_sep (sep : Char) (s cur : List Char) (h : sep ∉ s) :
    splitRunes sep s cur = [String.mk (cur.reverse ++ s)] := by
  induction s generalizing cur with
  | nil => simp [splitRunes]
  | cons c s ih =>
    have hc : ¬ c = sep := fun hcs => h (by rw [hcs]; exact List.mem_cons_self _ _)
    have hs : sep ∉ s := fun hm => h (List.mem_cons_of_mem _ hm)
    rw [splitRunes, if_neg hc, ih (c :: cur) hs]
    simp

theorem splitRunes_sep (sep : Char) (a b cur : List Char) (h : sep ∉ a) :
    splitRunes sep (a ++ sep :: b) cur
      = String.mk (cur.reverse ++ a) :: splitRunes sep b [] := by
  induction a generalizing cur with
  | nil => simp [splitRunes]
  | cons c a ih =>
    have hc : ¬ c = sep := fun hcs => h (by rw [hcs]; exact List.mem_cons_self _ _)
    have hs : sep ∉ a := fun hm => h (List.mem_cons_of_mem _ hm)
    rw [List.cons_append, splitRunes, if_neg hc, ih (c :: cur) hs]
    simp

theorem splitRunes_ne_nil (sep : Char) (s cur : List Char) :
    ∃ x xs, splitRunes sep s cur = x :: xs := by
  induction s generalizing cur with
  | nil => exact ⟨_, _, rfl⟩
  | cons c s ih =>
    by_cases hc : c = sep
    · exact ⟨_, _, by rw [splitRunes, if_pos hc]⟩
    · obtain ⟨x, xs, hx⟩ := ih (c :: cur)
      exact ⟨x, xs, by rw [splitRunes, if_neg hc, hx]⟩

theorem splitRunes_of_mem (sep : Char) (s cur : List Char) (h : sep ∈ s) :
    ∃ a b rest, splitRunes sep s cur = a :: b :: rest := by
  induction s generalizing cur with
  | nil => simp at h
  | cons c s ih =>
    by_cases hc : c = sep
    · obtain ⟨x, xs, hx⟩ := splitRunes_ne_nil sep s []
      exact ⟨_, x, xs, by rw [splitRunes, if_pos hc, hx]⟩
    · have hs : sep ∈ s := by
        rcases List.mem_cons.mp h with h1 | h1
        · exact absurd h1.symm hc
        · exact h1
      obtain ⟨a, b, rest, hx⟩ := ih (c :: cur) hs
      exact ⟨a, b, rest, by rw [splitRunes, if_neg hc, hx]⟩

/-- `strings.Split(s, "/")` has a second segment exactly when `s` contains a
slash. -/
theorem Split_second_iff (s : String) :
    (∃ a b rest, Split s '/' = a :: b :: rest) ↔ '/' ∈ s.data := by
  constructor
  · rintro ⟨a, b, rest, h⟩
    by_contra hn
    unfold Split at h
    rw [splitRunes_no_sep '/' s.data [] hn] at h
    simp at h
  · intro h
    exact splitRunes_of_mem '/' s.data [] h

/-- `strings.Split(o + "/" + r, "/")` is `[o, r]` when neither contains a
slash. -/
theorem Split_pair (o r : String) (ho : '/' ∉ o.data) (hr : '/' ∉ r.data) :
    Split (o ++ "/" ++ r) '/' = [o, r] := by
  unfold Split
  have hd : (o ++ "/" ++ r).data = o.data ++ '/' :: r.data := by
    simp only [String.data_append]
    rw [List.append_assoc]
    rfl
  rw [hd, splitRunes_sep '/' o.data r.data [] ho, splitRunes_no_sep '/' r.data [] hr]
  simp

theorem parseBody_of_numberedBody (env : Env) (body eventType : String)
    (jsonMap : List (String × JSON)) (f : Float64) (fullName : String)
    (h : numberedBody env body eventType jsonMap f fullName) :
    parseBody env body eventType = parseBodyRest jsonMap f.toInt := by
  obtain ⟨hne, hjson, hnum, -⟩ := h
  unfold parseBody
  rw [if_neg hne, hjson]
  rcases hnum with ⟨hev, hf⟩ | ⟨hev, issueSection, hissue, hf⟩
  · subst hev
    have hn : numberOfPullRequest jsonMap = Outcome.ret (Except.ok f.toInt) := by
      unfold numberOfPullRequest
      rw [hf]
    have hne2 : ¬ ("pull_request" = "issue_comment") := by decide
    simp only [if_true, hn, if_neg hne2]
  · subst hev
    have hn : numberOfIssueComment jsonMap = Outcome.ret (Except.ok f.toInt) := by
      unfold numberOfIssueComment
      simp only [hissue, hf]
    have hne2 : ¬ ("issue_comment" = "pull_request") := by decide
    simp only [if_neg hne2, if_true, hn]

theorem parseBodyRest_of_sender (env : Env) (body eventType : String)
    (jsonMap : List (String × JSON)) (f : Float64) (fullName : String)
    (senderSection : List (String × JSON)) (prNum : Int)
    (h : numberedBody env body eventType jsonMap f fullName)
    (hs : asObject jsonMap "sender" = some senderSection) :
    parseBodyRest jsonMap prNum =
      match Split fullName '/' with
      | owner :: repository :: _ =>
        Outcome.ret
          (payloadOf prNum ((asString senderSection "login").getD "") owner repository, none)
      | _ => Outcome.panic "index out of range [1] with length 1" := by
  obtain ⟨-, -, -, repoSection, hrepo, hfull⟩ := h
  unfold parseBodyRest
  simp only [hrepo, hfull, hs]
  rfl

/-- An empty body is rejected with an error. -/
theorem parseBody_empty (env : Env) (eventType : String) :
    parseBody env "" eventType
      = Outcome.ret (⟨0, "", "", "", "", "", ""⟩, some "body is empty") := by
  unfold parseBody
  rw [if_pos rfl]

/-- A `pull_request` body without a `number` field is rejected with an error. -/
theorem parseBody_pull_request_no_number (env : Env) (body : String)
    (jsonMap : List (String × JSON)) (hne : body ≠ "")
    (hjson : env.jsonUnmarshal body = Except.ok jsonMap)
    (h : jsonMap.lookup "number" = none) :
    parseBody env body "pull_request"
      = Outcome.ret (⟨0, "", "", "", "", "", ""⟩,
          some "pull_request body missing \x27number\x27 field") := by
  unfold parseBody
  rw [if_neg hne, hjson]
  have hn : numberOfPullRequest jsonMap
      = Outcome.ret (Except.error "pull_request body missing \x27number\x27 field") := by
    unfold numberOfPullRequest
    rw [h]
  simp only [if_true, hn]

/-- An `issue_comment` body without an `issue` object, or whose `issue` object
has no `number` field, is rejected with an error. -/
theorem parseBody_issue_comment_no_number (env : Env) (body : String)
    (jsonMap : List (String × JSON)) (hne : body ≠ "")
    (hjson : env.jsonUnmarshal body = Except.ok jsonMap)
    (h : asObject jsonMap "issue" = none ∨
      ∃ issueSection, asObject jsonMap "issue" = some issueSection ∧
        issueSection.lookup "number" = none) :
    ∃ err, parseBody env body "issue_comment"
      = Outcome.ret (⟨0, "", "", "", "", "", ""⟩, some err) := by
  have hne2 : ¬ ("issue_comment" = "pull_request") := by decide
  unfold parseBody
  rw [if_neg hne, hjson]
  rcases h with h | ⟨issueSection, hi, hnum⟩
  · have hn : numberOfIssueComment jsonMap
        = Outcome.ret (Except.error "issue_comment body missing \x27issue\x27 section") := by
      unfold numberOfIssueComment
      rw [h]
    exact ⟨"issue_comment body missing \x27issue\x27 section",
      by simp only [if_neg hne2, if_true, hn]⟩
  · have hn : numberOfIssueComment jsonMap = Outcome.ret (Except.error
        "\x27number\x27 field missing in the issue section of issue_comment body") := by
      unfold numberOfIssueComment
      simp only [hi, hnum]
    exact ⟨"\x27number\x27 field missing in the issue section of issue_comment body",
      by simp only [if_neg hne2, if_true, hn]⟩

/-- C14, the code at the failing inputs: a `pull_request` body that decodes to
an object whose `number` is the string `"42"` has no numeric field `number`,
and `parseBody` panics on it instead of returning an error; so does it on an
`issue_comment` body whose `issue.number` is a string. -/
theorem C14_non_numeric_number_panics :
    (bodiesEnv.jsonUnmarshal stringNumberBody
        = Except.ok [("number", JSON.string "42"), repositoryMember "acme/widgets",
            senderMember "bob"] ∧
      parseBody bodiesEnv stringNumberBody "pull_request"
        = Outcome.panic "interface conversion: interface is not float64") ∧
    (bodiesEnv.jsonUnmarshal stringIssueNumberBody
        = Except.ok [("issue", JSON.object [("number", JSON.string "42")]),
            repositoryMember "acme/widgets", senderMember "bob"] ∧
      parseBody bodiesEnv stringIssueNumberBody "issue_comment"
        = Outcome.panic "interface conversion: interface is not float64") :=
  ⟨⟨rfl, rfl⟩, ⟨rfl, rfl⟩⟩

/-- C15 as amended: for a body that is valid but for the form of
`repository.full_name`, `parseBody` succeeds only if the full name contains a
slash, that is, only if its split on `/` has a second segment; and whenever it
has one, `parseBody` succeeds with the first segment as owner and the second
as repository, whatever the segments and whatever follows them. -/
theorem C15_full_name_first_two_segments (env : Env) (body eventType : String)
    (jsonMap : List (String × JSON)) (f : Float64) (fullName sender : String)
    (hb : numberedBody env body eventType jsonMap f fullName)
    (hs : senderLogin jsonMap sender) :
    (∀ payload, parseBody env body eventType = Outcome.ret (payload, none) →
      '/' ∈ fullName.data ∧
      ∃ owner repository rest, Split fullName '/' = owner :: repository :: rest ∧
        payload = payloadOf f.toInt sender owner repository) ∧
    (∀ owner repository rest, Split fullName '/' = owner :: repository :: rest →
      parseBody env body eventType
        = Outcome.ret (payloadOf f.toInt sender owner repository, none)) := by
  obtain ⟨senderSection, hsec, hlogin⟩ := hs
  have hp := parseBody_of_numberedBody env body eventType jsonMap f fullName hb
  have hr := parseBodyRest_of_sender env body eventType jsonMap f fullName senderSection
    f.toInt hb hsec
  rw [hlogin] at hr
  simp only [Option.getD_some] at hr
  constructor
  · intro payload hpay
    rw [hp, hr] at hpay
    rcases hsplit : Split fullName '/' with _ | ⟨owner, _ | ⟨repository, rest⟩⟩
    · rw [hsplit] at hpay
      simp at hpay
    · rw [hsplit] at hpay
      simp at hpay
    · rw [hsplit] at hpay
      simp only [Outcome.ret.injEq, Prod.mk.injEq, and_true] at hpay
      exact ⟨(Split_second_iff fullName).mp ⟨owner, repository, rest, hsplit⟩,
        owner, repository, rest, rfl, hpay.symm⟩
  · intro owner repository rest hsplit
    rw [hp, hr, hsplit]

/-- Witness of C15: the full name `acme/widgets` of the demo body. -/
theorem C15_full_name_first_two_segments_witness :
    parseBody demoEnv demoBody "pull_request"
      = Outcome.ret (payloadOf 42 "bob" "acme" "widgets", none) :=
  (C15_full_name_first_two_segments demoEnv demoBody "pull_request"
    (demoJSON 42 "acme/widgets" "bob") ⟨42, 0⟩ "acme/widgets" "bob"
    ⟨by decide, rfl, Or.inl ⟨rfl, rfl⟩, _, rfl, rfl⟩ ⟨_, rfl, rfl⟩).2
    "acme" "widgets" [] (by decide)

/-- Counterexample to C15 as stated: the full name `a/b/c` has more than one
slash, the body is valid otherwise, and `parseBody` returns a result, with
owner `a` and repository `b`, and no error. -/
theorem C15_counterexample :
    numberedBody bodiesEnv threeSegmentsBody "pull_request"
      [("number", JSON.number ⟨42, 0⟩), repositoryMember "a/b/c", senderMember "bob"]
      ⟨42, 0⟩ "a/b/c" ∧
    Split "a/b/c" '/' = ["a", "b", "c"] ∧
    parseBody bodiesEnv threeSegmentsBody "pull_request"
      = Outcome.ret (payloadOf 42 "bob" "a" "b", none) :=
  ⟨⟨by decide, rfl, Or.inl ⟨rfl, rfl⟩, _, rfl, rfl⟩, by decide, rfl⟩

/-- C16 as amended: for a body that is valid for its event type (number and
`repository.full_name` present and well formed) and has a `sender` object, if
the object has no `login` then `parseBody` succeeds and returns the empty
string as sender. -/
theorem C16_absent_login_is_empty_sender (env : Env) (body eventType : String)
    (jsonMap : List (String × JSON)) (f : Float64) (fullName owner repository : String)
    (senderSection : List (String × JSON))
    (hb : numberedBody env body eventType jsonMap f fullName)
    (hsplit : Split fullName '/' = [owner, repository])
    (hs : asObject jsonMap "sender" = some senderSection)
    (hlogin : senderSection.lookup "login" = none) :
    parseBody env body eventType
      = Outcome.ret (payloadOf f.toInt "" owner repository, none) := by
  have hp := parseBody_of_numberedBody env body eventType jsonMap f fullName hb
  have hr := parseBodyRest_of_sender env body eventType jsonMap f fullName senderSection
    f.toInt hb hs
  have hl : asString senderSection "login" = none := by
    unfold asString
    rw [hlogin]
  rw [hp, hr, hsplit, hl]
  rfl

/-- Witness of C16: a body whose `sender` object is empty. -/
theorem C16_absent_login_is_empty_sender_witness :
    parseBody bodiesEnv noLoginBody "pull_request"
      = Outcome.ret (payloadOf 42 "" "acme" "widgets", none) :=
  C16_absent_login_is_empty_sender bodiesEnv noLoginBody "pull_request"
    [("number", JSON.number ⟨42, 0⟩), repositoryMember "acme/widgets",
      ("sender", JSON.object [])]
    ⟨42, 0⟩ "acme/widgets" "acme" "widgets" []
    ⟨by decide, rfl, Or.inl ⟨rfl, rfl⟩, _, rfl, rfl⟩ (by decide) rfl rfl

/-- Counterexample to C16 as stated: a body with the number and a well formed
full name and no `sender` object at all, so that `sender.login` is absent;
`parseBody` returns an error. -/
theorem C16_counterexample :
    numberedBody bodiesEnv noSenderBody "pull_request"
      [("number", JSON.number ⟨42, 0⟩), repositoryMember "acme/widgets"]
      ⟨42, 0⟩ "acme/widgets" ∧
    Split "acme/widgets" '/' = ["acme", "widgets"] ∧
    asObject [("number", JSON.number ⟨42, 0⟩), repositoryMember "acme/widgets"] "sender"
      = none ∧
    parseBody bodiesEnv noSenderBody "pull_request"
      = Outcome.ret (⟨0, "", "", "", "", "", ""⟩,
          some "payload body missing \x27sender\x27 field") :=
  ⟨⟨by decide, rfl, Or.inl ⟨rfl, rfl⟩, _, rfl, rfl⟩, by decide, rfl, rfl⟩

theorem Float64.toInt_ofInt (n : Int) (hn : n.natAbs ≤ 2 ^ 53) :
    (Float64.ofInt n).toInt = n := by
  unfold Float64.ofInt Float64.toInt
  rw [if_pos hn]
  simp only [le_refl, if_true, Int.toNat_zero, pow_zero, mul_one]
  have h1 : -(2 ^ 63 : Int) ≤ n := by omega
  have h2 : n < (2 ^ 63 : Int) := by omega
  rw [if_pos ⟨h1, h2⟩]

/-- C17 as amended: for every integer `n` of absolute value at most `2 ^ 53`,
strings `o` and `r` without slash and string `s`, `parseBody` on a
`pull_request` body with `number = n`, or on an `issue_comment` body with
`issue.number = n`, with the full name `o/r` and the sender login `s`,
succeeds and returns exactly the number `n`, the sender `s`, the owner `o` and
the repository `r`, the other fields being empty. -/
theorem C17_parseBody_extracts_fields (env : Env) (body eventType : String)
    (jsonMap : List (String × JSON)) (n : Int) (o r s : String)
    (hn : n.natAbs ≤ 2 ^ 53) (ho : '/' ∉ o.data) (hr : '/' ∉ r.data)
    (hb : numberedBody env body eventType jsonMap (Float64.ofInt n) (o ++ "/" ++ r))
    (hs : senderLogin jsonMap s) :
    parseBody env body eventType = Outcome.ret (payloadOf n s o r, none) := by
  obtain ⟨senderSection, hsec, hlogin⟩ := hs
  have hp := parseBody_of_numberedBody env body eventType jsonMap _ _ hb
  have hrest := parseBodyRest_of_sender env body eventType jsonMap _ _ senderSection
    (Float64.ofInt n).toInt hb hsec
  rw [hp, hrest, Split_pair o r ho hr, hlogin, Float64.toInt_ofInt n hn]
  rfl

/-- Witness of C17: the `issue_comment` body with `issue.number = 42`, full
name `acme/widgets` and sender `bob` gives the number 42, the owner `acme`,
the repository `widgets` and the sender `bob`. -/
theorem C17_parseBody_extracts_fields_witness :
    parseBody bodiesEnv scenarioBody "issue_comment"
      = Outcome.ret (payloadOf 42 "bob" "acme" "widgets", none) :=
  C17_parseBody_extracts_fields bodiesEnv scenarioBody "issue_comment"
    [("issue", JSON.object [("number", JSON.number (Float64.ofInt 42))]),
      repositoryMember "acme/widgets", senderMember "bob"]
    42 "acme" "widgets" "bob" (by decide) (by decide) (by decide)
    ⟨by decide, rfl, Or.inr ⟨rfl, _, rfl, rfl⟩, _, rfl, rfl⟩ ⟨_, rfl, rfl⟩

/-- Counterexample to C17 as stated: for `n = 2 ^ 53 + 1` the number decodes
to the `float64` value `2 ^ 53`, and `parseBody` returns the number
`9007199254740992`, which is not `n`. -/
theorem C17_counterexample :
    numberedBody bodiesEnv bigNumberBody "pull_request"
      [("number", JSON.number (Float64.ofInt 9007199254740993)),
        repositoryMember "acme/widgets", senderMember "bob"]
      (Float64.ofInt 9007199254740993) ("acme" ++ "/" ++ "widgets") ∧
    parseBody bodiesEnv bigNumberBody "pull_request"
      = Outcome.ret (payloadOf 9007199254740992 "bob" "acme" "widgets", none) ∧
    (9007199254740992 : Int) ≠ 9007199254740993 :=
  ⟨⟨by decide, rfl, Or.inl ⟨rfl, rfl⟩, _, rfl, rfl⟩, rfl, by decide⟩

/-! ### Relations between the sources -/

/-- C18: when the listing succeeds, `checkSenderOrgMembership` returns true,
without error, exactly when the login of some listed user is identical to the
sender, and so does `checkSenderRepoMembership`; the comparison is exact, so
that on the demo host `Dave` is not the member `dave` and `Erin` is not the
collaborator `erin`, although `strings.EqualFold` equates them. -/
theorem C18_membership_is_case_sensitive :
    (∀ (client : Host) (payload : payloadDetails) (users : List User),
      client.ListMembers payload.Owner = MembersResult.ok users →
      ((checkSenderOrgMembership client payload).1.1 = true ↔
        ∃ user ∈ users, user.GetLogin = payload.Sender) ∧
      (checkSenderOrgMembership client payload).1.2 = none) ∧
    (∀ (client : Host) (payload : payloadDetails) (users : List User),
      client.ListCollaborators payload.Owner payload.Repository = Except.ok users →
      ((checkSenderRepoMembership client payload).1.1 = true ↔
        ∃ user ∈ users, user.GetLogin = payload.Sender) ∧
      (checkSenderRepoMembership client payload).1.2 = none) ∧
    (EqualFold demoEnv "dave" "Dave" = true ∧
      (checkSenderOrgMembership demoHost (demoPayload "Dave")).1 = (false, none) ∧
      (checkSenderOrgMembership demoHost (demoPayload "dave")).1 = (true, none)) ∧
    (EqualFold demoEnv "erin" "Erin" = true ∧
      (checkSenderRepoMembership demoHost (demoPayload "Erin")).1 = (false, none) ∧
      (checkSenderRepoMembership demoHost (demoPayload "erin")).1 = (true, none)) := by
  refine ⟨?_, ?_, ⟨by decide, by decide, by decide⟩, ⟨by decide, by decide, by decide⟩⟩
  · intro client payload users h
    rw [checkSenderOrgMembership_ok client payload users h]
    simp only [List.any_eq_true, beq_iff_eq, and_true]
  · intro client payload users h
    unfold checkSenderRepoMembership
    rw [h]
    simp only [List.any_eq_true, beq_iff_eq, and_true]

/-- Witness of C18: on the demo host the members of `acme` are listed, and
`dave` is found among them. -/
theorem C18_membership_is_case_sensitive_witness :
    (checkSenderOrgMembership demoHost (demoPayload "dave")).1.1 = true :=
  ((C18_membership_is_case_sensitive.1 demoHost (demoPayload "dave") [⟨some "dave"⟩]
    rfl).1).mpr ⟨⟨some "dave"⟩, List.mem_singleton.mpr rfl, rfl⟩

/-- C19: the result of `allowedOkToTestFromAnOwner`, boolean, error and calls
made, does not depend on the sender of the payload: two payloads that differ
only in the sender give the same result for the same params and host. -/
theorem C19_comment_scan_ignores_sender (env : Env) (client : Host)
    (payload : payloadDetails) (p : GitHubOwnersInterceptor) (sender : String) :
    allowedOkToTestFromAnOwner env client { payload with Sender := sender } p
      = allowedOkToTestFromAnOwner env client payload p := by
  unfold allowedOkToTestFromAnOwner
  have hg : getStringPullRequestComment client { payload with Sender := sender }
      = getStringPullRequestComment client payload := rfl
  rw [hg]
  rcases hr : getStringPullRequestComment client payload with ⟨⟨comments, e⟩, t⟩
  cases e with
  | some err => rfl
  | none => simp only [scanComments_sender]

theorem callFails_of_allCallsSucceed (env : Env) (client : Host) (payload : payloadDetails)
    (p : GitHubOwnersInterceptor) (hall : allCallsSucceed client payload) :
    ∀ c ∈ (checkOwnershipAndMembership env client payload p).2,
      callFails client c = false := by
  intro c hc
  have hsub := (checkOwnershipAndMembership_trace env client payload p).subset hc
  obtain ⟨h1, h2, h3⟩ := hall
  unfold plannedCalls at hsub
  simp only [List.mem_append, List.mem_singleton] at hsub
  rcases hsub with (hm | hm) | hm
  · by_cases hp : p.OrgPublicMemberAllowed = true
    · simp only [hp, if_true, List.mem_singleton] at hm
      rw [hm]
      exact h1
    · simp [hp] at hm
  · by_cases hp : p.RepoMemberAllowed = true
    · simp only [hp, if_true, List.mem_singleton] at hm
      rw [hm]
      exact h2
    · simp [hp] at hm
  · rw [hm]
    exact h3

/-- C20: in a host state in which the two listings and the retrieval of the
OWNERS file succeed, if `checkOwnershipAndMembership` returns true with the
flags of `p`, it returns true with the flags of any `q` that sets every flag
that `p` sets. -/
theorem C20_more_checks_never_revoke (env : Env) (client : Host) (payload : payloadDetails)
    (p q : GitHubOwnersInterceptor) (hall : allCallsSucceed client payload)
    (horg : p.OrgPublicMemberAllowed = true → q.OrgPublicMemberAllowed = true)
    (hrepo : p.RepoMemberAllowed = true → q.RepoMemberAllowed = true)
    (h : (checkOwnershipAndMembership env client payload p).1.1 = true) :
    (checkOwnershipAndMembership env client payload q).1.1 = true ∧
    (checkOwnershipAndMembership env client payload q).1.2 = none := by
  have hp := checkOwnershipAndMembership_granted_no_error env client payload p h
  have hsrc := (checkOwnershipAndMembership_true_iff env client payload p
    (callFails_of_allCallsSucceed env client payload p hall)).mp hp
  have hq : (checkOwnershipAndMembership env client payload q).1 = (true, none) := by
    apply (checkOwnershipAndMembership_true_iff env client payload q
      (callFails_of_allCallsSucceed env client payload q hall)).mpr
    rcases hsrc with ⟨ha, hm⟩ | ⟨hb, hc⟩ | ho
    · exact Or.inl ⟨horg ha, hm⟩
    · exact Or.inr (Or.inl ⟨hrepo hb, hc⟩)
    · exact Or.inr (Or.inr ho)
  rw [hq]
  exact ⟨rfl, rfl⟩

/-- Witness of C20: on the demo host `erin` is granted as collaborator with
the repository flag alone, and still with both flags. -/
theorem C20_more_checks_never_revoke_witness :
    (checkOwnershipAndMembership demoEnv demoHost (demoPayload "erin")
      ⟨none, true, true⟩).1.1 = true :=
  (C20_more_checks_never_revoke demoEnv demoHost (demoPayload "erin") ⟨none, false, true⟩
    ⟨none, true, true⟩ ⟨by decide, by decide, by decide⟩ (fun h => absurd h (by decide))
    (fun _ => rfl) (by decide)).1

end GithubOwners
